import Mathlib

/-!
Shallow embedding of the relationship-graph core of the repository
(source: src/viz/RelationshipGraphViz.js) together with proofs of the
specified properties.  Numeric scores are modelled as exact rationals;
JS string arrays, Maps and Sets are modelled as Lean lists, association
lists and membership-checked lists.  All definitions are translated
from the JS source; the definitions are executable so that concrete
witnesses can be evaluated.
-/

namespace RelGraph

/-- A pipeline step record (entries of data.pipelineSteps). -/
structure PipelineStep where
  id : String
  name : String
  order : Int
  deriving DecidableEq

/-- A method record of the catalog (entries of data.methods).  Optional
JS fields (tasks, tags, related ids, year) are modelled as lists and
Option, matching the || [] defaults in the source. -/
structure MethodRecord where
  id : String
  name : String
  pipeline_step : String
  modalities : List String
  tasks : List String
  tags : List String
  maturity : String
  evidence_type : String
  related_method_ids : List String
  year : Option Int
  deriving DecidableEq

/-- The data argument of buildGraphData: method catalog plus step list. -/
structure CatalogData where
  methods : List MethodRecord
  pipelineSteps : List PipelineStep
  deriving DecidableEq

/-- Length of xs.filter((m) => ys.includes(m)), the shared-element count
used by calculateSimilarity and the link-generation stages. -/
def countShared (xs ys : List String) : Nat :=
  (xs.filter fun x => ys.contains x).length

/-- Pipeline-step proximity contribution of calculateSimilarity: look up
both step ids; 0.15 for equal order, 0.05 for adjacent order, else 0;
0 when either lookup fails. -/
def stepProximity (pipelineSteps : List PipelineStep) (p1 p2 : String) : ℚ :=
  match pipelineSteps.find? (fun s => s.id == p1),
        pipelineSteps.find? (fun s => s.id == p2) with
  | some s1, some s2 =>
    if (s1.order - s2.order).natAbs = 0 then 0.15
    else if (s1.order - s2.order).natAbs = 1 then 0.05
    else 0
  | _, _ => 0

/-- The accumulated (unclamped) score of calculateSimilarity. -/
def rawScore (m1 m2 : MethodRecord) (pipelineSteps : List PipelineStep) : ℚ :=
  (countShared m1.modalities m2.modalities : ℚ) * 0.25
    + (countShared m1.tasks m2.tasks : ℚ) * 0.2
    + (countShared m1.tags m2.tags : ℚ) * 0.1
    + stepProximity pipelineSteps m1.pipeline_step m2.pipeline_step
    + (if m1.maturity = m2.maturity then 0.05 else 0)
    + (if m1.evidence_type = m2.evidence_type then 0.05 else 0)

/-- Embedding of calculateSimilarity(method1, method2, pipelineSteps):
returns 0 for equal ids, otherwise the accumulated score capped at 1. -/
def calculateSimilarity (m1 m2 : MethodRecord) (pipelineSteps : List PipelineStep) : ℚ :=
  if m1.id = m2.id then 0 else min (rawScore m1 m2 pipelineSteps) 1

/-- The five relationship types of RELATIONSHIP_TYPES. -/
inductive RelType where
  | explicit
  | sameStep
  | sharedModality
  | sharedTask
  | similar
  deriving DecidableEq

/-- A graph edge as pushed by addLink; the style descriptor spread from
RELATIONSHIP_TYPES is a pure function of the type and is omitted. -/
structure Link where
  source : String
  target : String
  type : RelType
  strength : ℚ
  deriving DecidableEq

/-- A graph node as produced by buildGraphData (display color omitted;
it is a pure lookup keyed by pipelineStep). -/
structure GraphNode where
  id : String
  name : String
  shortName : String
  pipelineStep : String
  modalities : List String
  tasks : List String
  tags : List String
  maturity : String
  evidenceType : String
  relatedIds : List String
  year : Option Int
  degree : Nat
  deriving DecidableEq

/-- Node construction from a method record (degree filled in later;
the source initialises it after the edges are known). -/
def mkNode (m : MethodRecord) : GraphNode :=
  { id := m.id
    name := m.name
    shortName := if m.name.length > 30 then m.name.take 27 ++ "..." else m.name
    pipelineStep := m.pipeline_step
    modalities := m.modalities
    tasks := m.tasks
    tags := m.tags
    maturity := m.maturity
    evidenceType := m.evidence_type
    relatedIds := m.related_method_ids
    year := m.year
    degree := 0 }

/-- The options object of buildGraphData with its defaults. -/
structure LinkOptions where
  showExplicitRelations : Bool := true
  showSimilarMethods : Bool := true
  similarityThreshold : ℚ := 0.35
  showSameStepLinks : Bool := false
  showSharedModalityLinks : Bool := false
  showSharedTaskLinks : Bool := false
  maxSimilarLinks : Nat := 3
  deriving DecidableEq

/-- Lexicographic order on character lists; models the default JS array
sort order used on the two id strings inside addLink. -/
def charListLe : List Char → List Char → Bool
  | [], _ => true
  | _ :: _, [] => false
  | a :: as, b :: bs => if a = b then charListLe as bs else decide (a < b)

/-- String comparison via the underlying character list. -/
def strLe (s t : String) : Bool := charListLe s.data t.data

/-- The deduplication key [source, target].sort().join(hyphens) of addLink. -/
def linkKey (source target : String) : String :=
  if strLe source target then source ++ "--" ++ target else target ++ "--" ++ source

/-- Mutable state threaded through buildGraphData: the links array and
the addedLinks key set (modelled as the list of inserted keys). -/
structure BuildState where
  links : List Link
  addedLinks : List String
  deriving DecidableEq

/-- Embedding of the addLink helper: push a link and record its key
unless the key is already present or the link would be a self loop. -/
def addLink (st : BuildState) (source target : String) (type : RelType)
    (strength : ℚ) : BuildState :=
  if !(st.addedLinks.contains (linkKey source target)) && source != target then
    { links := st.links ++ [⟨source, target, type, strength⟩]
      addedLinks := st.addedLinks ++ [linkKey source target] }
  else st

/-- One argument tuple of a call to addLink. -/
structure Attempt where
  source : String
  target : String
  type : RelType
  strength : ℚ
  deriving DecidableEq

/-- Run addLink over a list of call arguments in order. -/
def applyAttempts (st : BuildState) (atts : List Attempt) : BuildState :=
  atts.foldl (fun st a => addLink st a.source a.target a.type a.strength) st

/-- All index pairs i < j of a list, in the nested-loop order used by
the link-generation stages. -/
def listPairs {α : Type} : List α → List (α × α)
  | [] => []
  | x :: xs => (xs.map fun y => (x, y)) ++ listPairs xs

/-- Stage 1: explicit relationships; one addLink call per related id
that resolves in the node map. -/
def explicitAttempts (methods : List MethodRecord) (nodeIds : List String) :
    List Attempt :=
  methods.flatMap fun m =>
    (m.related_method_ids.filter fun r => nodeIds.contains r).map fun r =>
      ⟨m.id, r, .explicit, 1⟩

/-- Stage 2: same-pipeline-step links over each step group. -/
def sameStepAttempts (methods : List MethodRecord)
    (pipelineSteps : List PipelineStep) : List Attempt :=
  pipelineSteps.flatMap fun step =>
    (listPairs (methods.filter fun m => m.pipeline_step == step.id)).map fun p =>
      ⟨p.1.id, p.2.id, .sameStep, 0.3⟩

/-- Stage 3: shared-modality links between different-step pairs. -/
def sharedModalityAttempts (methods : List MethodRecord) : List Attempt :=
  (listPairs methods).filterMap fun p =>
    let shared := countShared p.1.modalities p.2.modalities
    if shared > 0 && p.1.pipeline_step != p.2.pipeline_step then
      some ⟨p.1.id, p.2.id, .sharedModality, 0.4 + (shared : ℚ) * 0.1⟩
    else none

/-- Stage 4: shared-task links between different-step pairs. -/
def sharedTaskAttempts (methods : List MethodRecord) : List Attempt :=
  (listPairs methods).filterMap fun p =>
    let shared := countShared p.1.tasks p.2.tasks
    if shared > 0 && p.1.pipeline_step != p.2.pipeline_step then
      some ⟨p.1.id, p.2.id, .sharedTask, 0.3 + (shared : ℚ) * 0.15⟩
    else none

/-- A similarity candidate of stage 5. -/
structure Sim where
  source : String
  target : String
  similarity : ℚ
  deriving DecidableEq

/-- Stage 5 candidate collection: all pairs whose similarity reaches the
threshold. -/
def simCandidates (methods : List MethodRecord)
    (pipelineSteps : List PipelineStep) (threshold : ℚ) : List Sim :=
  (listPairs methods).filterMap fun p =>
    let sim := calculateSimilarity p.1 p.2 pipelineSteps
    if threshold ≤ sim then some ⟨p.1.id, p.2.id, sim⟩ else none

/-- Stage 5 candidates sorted descending by similarity (stable, like the
JS sort with comparator b.similarity - a.similarity). -/
def sortedSims (methods : List MethodRecord)
    (pipelineSteps : List PipelineStep) (threshold : ℚ) : List Sim :=
  (simCandidates methods pipelineSteps threshold).mergeSort
    fun a b => decide (b.similarity ≤ a.similarity)

/-- Functional update of a string-keyed counter map. -/
def bumpTo (f : String → Nat) (k : String) (v : Nat) : String → Nat :=
  fun k2 => if k2 = k then v else f k2

/-- Stage 5 greedy loop: per-node running counts gate each addLink call;
the counts are incremented whenever the gate passes, exactly as in the
source (even when addLink itself skips an already-linked pair). -/
def simFold (maxL : Nat) : BuildState → (String → Nat) → List Sim → BuildState
  | st, _, [] => st
  | st, counts, s :: rest =>
    let sc := counts s.source
    let tc := counts s.target
    if sc < maxL ∧ tc < maxL then
      simFold maxL (addLink st s.source s.target .similar s.similarity)
        (bumpTo (bumpTo counts s.source (sc + 1)) s.target (tc + 1)) rest
    else simFold maxL st counts rest

/-- The list of addLink calls that the stage 5 loop performs, computed
from the counter evolution alone (the counters never depend on the
link state). -/
def simAttemptList (maxL : Nat) : (String → Nat) → List Sim → List Attempt
  | _, [] => []
  | counts, s :: rest =>
    let sc := counts s.source
    let tc := counts s.target
    if sc < maxL ∧ tc < maxL then
      ⟨s.source, s.target, .similar, s.similarity⟩ ::
        simAttemptList maxL (bumpTo (bumpTo counts s.source (sc + 1)) s.target (tc + 1)) rest
    else simAttemptList maxL counts rest

/-- Increment of a string-keyed counter, as degree computation does. -/
def bump (f : String → Nat) (k : String) : String → Nat :=
  fun k2 => if k2 = k then f k + 1 else f k2

/-- The degree map: each link increments both of its endpoint counters. -/
def degreeMap (links : List Link) : String → Nat :=
  links.foldl (fun f l => bump (bump f l.source) l.target) (fun _ => 0)

/-- Result of buildGraphData. -/
structure GraphData where
  nodes : List GraphNode
  links : List Link

/-- Embedding of buildGraphData(data, options): five link-generation
stages over a shared deduplicating state, then degree computation. -/
def buildGraphData (data : CatalogData) (opts : LinkOptions) : GraphData :=
  let methods := data.methods
  let nodes0 := methods.map mkNode
  let nodeIds := methods.map (fun m => m.id)
  let st0 : BuildState := ⟨[], []⟩
  let st1 := if opts.showExplicitRelations then
      applyAttempts st0 (explicitAttempts methods nodeIds) else st0
  let st2 := if opts.showSameStepLinks then
      applyAttempts st1 (sameStepAttempts methods data.pipelineSteps) else st1
  let st3 := if opts.showSharedModalityLinks then
      applyAttempts st2 (sharedModalityAttempts methods) else st2
  let st4 := if opts.showSharedTaskLinks then
      applyAttempts st3 (sharedTaskAttempts methods) else st3
  let st5 := if opts.showSimilarMethods then
      simFold opts.maxSimilarLinks st4 (fun _ => 0)
        (sortedSims methods data.pipelineSteps opts.similarityThreshold)
    else st4
  { nodes := nodes0.map fun n => { n with degree := degreeMap st5.links n.id }
    links := st5.links }

/-- The full ordered sequence of addLink calls of a build, stages
concatenated in their priority order (explicit, same-step,
shared-modality, shared-task, similarity). -/
def allAttempts (data : CatalogData) (opts : LinkOptions) : List Attempt :=
  (if opts.showExplicitRelations then
      explicitAttempts data.methods (data.methods.map (fun m => m.id)) else [])
    ++ (if opts.showSameStepLinks then
      sameStepAttempts data.methods data.pipelineSteps else [])
    ++ (if opts.showSharedModalityLinks then
      sharedModalityAttempts data.methods else [])
    ++ (if opts.showSharedTaskLinks then
      sharedTaskAttempts data.methods else [])
    ++ (if opts.showSimilarMethods then
      simAttemptList opts.maxSimilarLinks (fun _ => 0)
        (sortedSims data.methods data.pipelineSteps opts.similarityThreshold)
    else [])

/-- The first four link-generation stages of a build (everything before
the similarity stage), concatenated in priority order. -/
def preAttempts (data : CatalogData) (opts : LinkOptions) : List Attempt :=
  (if opts.showExplicitRelations then
      explicitAttempts data.methods (data.methods.map (fun m => m.id)) else [])
    ++ (if opts.showSameStepLinks then
      sameStepAttempts data.methods data.pipelineSteps else [])
    ++ (if opts.showSharedModalityLinks then
      sharedModalityAttempts data.methods else [])
    ++ (if opts.showSharedTaskLinks then
      sharedTaskAttempts data.methods else [])

/-- Two ordered endpoint pairs describe the same unordered pair. -/
def samePair (s t s2 t2 : String) : Prop :=
  (s = s2 ∧ t = t2) ∨ (s = t2 ∧ t = s2)

/-- Boolean form of samePair. -/
def samePairB (s t s2 t2 : String) : Bool :=
  (s == s2 && t == t2) || (s == t2 && t == s2)

/-- The first addLink call of a build that mentions the given unordered
pair, in stage priority order. -/
def firstClaim (atts : List Attempt) (s t : String) : Option Attempt :=
  atts.find? fun a => samePairB a.source a.target s t

/-- Number of similarity-type links incident to an id. -/
def countSimilar (links : List Link) (v : String) : Nat :=
  (links.filter fun l => l.type == RelType.similar && (l.source == v || l.target == v)).length

/-- A method with its related-id list restricted to ids of the given
list (used to express the stale-reference tolerance of the builder). -/
def pruneMethod (ids : List String) (m : MethodRecord) : MethodRecord :=
  { m with related_method_ids := m.related_method_ids.filter fun r => ids.contains r }

/-- The catalog with every unresolvable related id removed from every
method (the resolvable ids are exactly the catalog method ids). -/
def pruneStale (data : CatalogData) : CatalogData :=
  { data with
    methods := data.methods.map (pruneMethod (data.methods.map fun m => m.id)) }

/-- A cluster region of computeClusterHulls (color omitted; it is a
pure lookup keyed by the step id). -/
structure ClusterRegion where
  id : String
  name : String
  nodes : List GraphNode
  deriving DecidableEq

/-- JS Map.set on an association list: replace the first binding of the
key in place, else append a new binding. -/
def mapSet {β : Type} : List (String × β) → String → β → List (String × β)
  | [], k, v => [(k, v)]
  | (k2, v2) :: rest, k, v =>
    if k2 = k then (k, v) :: rest else (k2, v2) :: mapSet rest k v

/-- One step of the first forEach of computeClusterHulls: register an
empty region for a step id (Map.set semantics). -/
def clusterRegister (m : List (String × ClusterRegion)) (step : PipelineStep) :
    List (String × ClusterRegion) :=
  mapSet m step.id ⟨step.id, step.name, []⟩

/-- The clusters map after the first forEach of computeClusterHulls. -/
def clusterInit (pipelineSteps : List PipelineStep) :
    List (String × ClusterRegion) :=
  pipelineSteps.foldl clusterRegister []

/-- One step of the second forEach of computeClusterHulls: push a node
onto the region matching its pipeline step, if any. -/
def clusterInsert (m : List (String × ClusterRegion)) (node : GraphNode) :
    List (String × ClusterRegion) :=
  match m.lookup node.pipelineStep with
  | some c => mapSet m node.pipelineStep ⟨c.id, c.name, c.nodes ++ [node]⟩
  | none => m

/-- Embedding of computeClusterHulls(nodes, pipelineSteps): one region
per step id, nodes appended to the region matching their step, empty
regions filtered out (hull path geometry is not modelled). -/
def computeClusterHulls (nodes : List GraphNode)
    (pipelineSteps : List PipelineStep) : List ClusterRegion :=
  ((nodes.foldl clusterInsert (clusterInit pipelineSteps)).map
      (fun e => e.2)).filter fun c => decide (c.nodes.length > 0)

/-- The ZOOM_LEVELS thresholds. -/
def ZOOM_ABSTRACT : ℚ := 0.45

/-- Threshold below which the band is Minimal (upper bound). -/
def ZOOM_MINIMAL : ℚ := 0.7

/-- Threshold at which detail cards appear. -/
def ZOOM_DETAILED : ℚ := 1.5

/-- Threshold of the Full band. -/
def ZOOM_FULL : ℚ := 2.2

/-- Node radius multiplier applied by updateSemanticZoom as a function
of the zoom scale: 0.6 in Abstract, 0.8 in Minimal, 1 otherwise. -/
def nodeRadiusMultiplier (scale : ℚ) : ℚ :=
  if scale < ZOOM_ABSTRACT then 0.6
  else if ZOOM_ABSTRACT ≤ scale ∧ scale < ZOOM_MINIMAL then 0.8
  else 1

/-- Whether updateDetailCards attaches detail cards at the given scale:
it returns early (cards removed) unless the Detailed or Full band is
active. -/
def detailCardsPresent (scale : ℚ) : Bool :=
  decide (ZOOM_DETAILED ≤ scale ∧ scale < ZOOM_FULL) || decide (ZOOM_FULL ≤ scale)

/-- Marker for the nature of an operation exposed on the returned
handle: a do-nothing closure or a real implementation. -/
inductive HandleOp where
  | noop
  | active
  deriving DecidableEq

/-- The shape of the object returned by createRelationshipGraph: which
operations exist on it and whether they are no-ops.  A field of none
models an absent property (invoking it throws in JS). -/
structure GraphHandle where
  update : Option HandleOp
  destroy : Option HandleOp
  zoomToFit : Option HandleOp
  zoomIn : Option HandleOp
  zoomOut : Option HandleOp
  resetSimulation : Option HandleOp
  deriving DecidableEq

/-- Shape of the handle returned by createRelationshipGraph as a
function of the measured container width: the zero-width early return
exposes only update and destroy (both no-ops); the normal path exposes
all six operations. -/
def createRelationshipGraphHandle (containerWidth : ℚ) : GraphHandle :=
  if containerWidth = 0 then
    { update := some .noop
      destroy := some .noop
      zoomToFit := none
      zoomIn := none
      zoomOut := none
      resetSimulation := none }
  else
    { update := some .active
      destroy := some .active
      zoomToFit := some .active
      zoomIn := some .active
      zoomOut := some .active
      resetSimulation := some .active }

/-- Concrete catalog used by witnesses: mA explicitly references mB, a
missing id (ghost) and itself. -/
def mA : MethodRecord :=
  ⟨"mA", "Method A", "stepX", ["text"], [], [], "mature", "paper",
    ["mB", "ghost", "mA"], some 2020⟩

/-- Second witness method. -/
def mB : MethodRecord :=
  ⟨"mB", "Method B", "stepY", ["image"], [], [], "early", "demo", [], none⟩

/-- Witness catalog with two methods and two steps. -/
def catAB : CatalogData :=
  ⟨[mA, mB], [⟨"stepX", "Step X", 1⟩, ⟨"stepY", "Step Y", 2⟩]⟩

/-- Witness options: explicit stage only. -/
def optsE : LinkOptions := ⟨true, false, 0, false, false, false, 3⟩

/-- Witness method sharing one modality with simB and nothing else. -/
def simA : MethodRecord :=
  ⟨"sA", "Sim A", "p1", ["text"], [], [], "m1", "e1", [], none⟩

/-- Witness method sharing one modality with simA. -/
def simB : MethodRecord :=
  ⟨"sB", "Sim B", "p2", ["text"], [], [], "m2", "e2", [], none⟩

/-- Witness catalog for the similarity stage (no pipeline steps). -/
def catSim : CatalogData := ⟨[simA, simB], []⟩

/-- Witness options: similarity stage only, threshold 0.2. -/
def optsSim : LinkOptions := ⟨false, true, 0.2, false, false, false, 3⟩

/-- Record with a duplicated modality entry (counterexample input). -/
def dupA : MethodRecord :=
  ⟨"dA", "Dup A", "s1", ["text", "text"], [], [], "m1", "e1", [], none⟩

/-- Record sharing one modality with dupA. -/
def dupB : MethodRecord :=
  ⟨"dB", "Dup B", "s2", ["text"], [], [], "m2", "e2", [], none⟩

/-- A node whose pipeline step resolves to no step record. -/
def orphanNode : GraphNode :=
  ⟨"n1", "Orphan", "Orphan", "stepZ", [], [], [], "m", "e", [], none, 0⟩

/-- A node whose pipeline step is stepX. -/
def housedNode : GraphNode :=
  ⟨"n2", "Housed", "Housed", "stepX", [], [], [], "m", "e", [], none, 0⟩

/-- Witness step list for the cluster computation. -/
def stepsX : List PipelineStep := [⟨"stepX", "Step X", 1⟩]

/-- Invariant of the build state: no self loops, every pushed link has
its key in the set, and links carry pairwise distinct keys. -/
def Inv (st : BuildState) : Prop :=
  (∀ l ∈ st.links, l.source ≠ l.target) ∧
  (∀ l ∈ st.links, linkKey l.source l.target ∈ st.addedLinks) ∧
  st.links.Pairwise fun l1 l2 =>
    linkKey l1.source l1.target ≠ linkKey l2.source l2.target

theorem charListLe_total (xs ys : List Char) :
    charListLe xs ys = true ∨ charListLe ys xs = true := by
  induction xs generalizing ys with
  | nil => exact Or.inl rfl
  | cons a as ih =>
    cases ys with
    | nil => exact Or.inr rfl
    | cons b bs =>
      by_cases hab : a = b
      · subst hab
        simpa [charListLe] using ih bs
      · rcases lt_or_gt_of_ne hab with h | h
        · left
          simp [charListLe, hab, h]
        · right
          have hba : b ≠ a := fun e => hab e.symm
          simp [charListLe, hba, h]

theorem charListLe_antisymm (xs ys : List Char) (h1 : charListLe xs ys = true)
    (h2 : charListLe ys xs = true) : xs = ys := by
  induction xs generalizing ys with
  | nil =>
    cases ys with
    | nil => rfl
    | cons b bs => simp [charListLe] at h2
  | cons a as ih =>
    cases ys with
    | nil => simp [charListLe] at h1
    | cons b bs =>
      by_cases hab : a = b
      · subst hab
        simp only [charListLe, if_pos rfl] at h1 h2
        rw [ih bs h1 h2]
      · exfalso
        have hba : b ≠ a := fun e => hab e.symm
        simp only [charListLe, if_neg hab, decide_eq_true_eq] at h1
        simp only [charListLe, if_neg hba, decide_eq_true_eq] at h2
        exact lt_asymm h1 h2

theorem strLe_total (s t : String) : strLe s t = true ∨ strLe t s = true :=
  charListLe_total s.data t.data

theorem strLe_antisymm (s t : String) (h1 : strLe s t = true)
    (h2 : strLe t s = true) : s = t := by
  cases s with
  | mk xs =>
    cases t with
    | mk ys => exact congrArg String.mk (charListLe_antisymm xs ys h1 h2)

theorem linkKey_comm (s t : String) : linkKey s t = linkKey t s := by
  unfold linkKey
  by_cases h1 : strLe s t = true <;> by_cases h2 : strLe t s = true <;>
    simp only [h1, h2, if_true, if_false, Bool.false_eq_true, if_neg, ite_true, ite_false]
  · rw [strLe_antisymm s t h1 h2]
  · rcases strLe_total s t with h | h
    · exact absurd h h1
    · exact absurd h h2

theorem samePair_key {s t s2 t2 : String} (h : samePair s t s2 t2) :
    linkKey s t = linkKey s2 t2 := by
  rcases h with ⟨h1, h2⟩ | ⟨h1, h2⟩
  · rw [h1, h2]
  · rw [h1, h2, linkKey_comm]

theorem samePairB_iff {s t s2 t2 : String} :
    samePairB s t s2 t2 = true ↔ samePair s t s2 t2 := by
  simp [samePairB, samePair]

theorem samePair_self (s t : String) : samePair s t s t := Or.inl ⟨rfl, rfl⟩

theorem contains_iff_mem {l : List String} {k : String} :
    l.contains k = true ↔ k ∈ l := List.elem_iff

theorem addLink_cases (st : BuildState) (s t : String) (ty : RelType) (str : ℚ) :
    (addLink st s t ty str = st ∧ (linkKey s t ∈ st.addedLinks ∨ s = t)) ∨
    (linkKey s t ∉ st.addedLinks ∧ s ≠ t ∧
      addLink st s t ty str =
        ⟨st.links ++ [⟨s, t, ty, str⟩], st.addedLinks ++ [linkKey s t]⟩) := by
  unfold addLink
  by_cases hc : linkKey s t ∈ st.addedLinks
  · left
    refine ⟨?_, Or.inl hc⟩
    have hcond : (!(st.addedLinks.contains (linkKey s t)) && s != t) = false := by
      rw [contains_iff_mem.2 hc]
      rfl
    rw [if_neg ?_]
    rw [hcond]
    exact Bool.false_ne_true
  · by_cases hst : s = t
    · left
      refine ⟨?_, Or.inr hst⟩
      have hcond : (!(st.addedLinks.contains (linkKey s t)) && s != t) = false := by
        subst hst
        simp
      rw [if_neg ?_]
      rw [hcond]
      exact Bool.false_ne_true
    · right
      refine ⟨hc, hst, ?_⟩
      have hcb : st.addedLinks.contains (linkKey s t) = false := by
        rw [Bool.eq_false_iff]
        intro hcon
        exact hc (contains_iff_mem.1 hcon)
      have hcond : (!(st.addedLinks.contains (linkKey s t)) && s != t) = true := by
        rw [hcb]
        simp [bne_iff_ne, hst]
      rw [if_pos hcond]

theorem applyAttempts_nil (st : BuildState) : applyAttempts st [] = st := rfl

theorem applyAttempts_cons (st : BuildState) (a : Attempt) (atts : List Attempt) :
    applyAttempts st (a :: atts) =
      applyAttempts (addLink st a.source a.target a.type a.strength) atts := rfl

theorem applyAttempts_append (st : BuildState) (xs ys : List Attempt) :
    applyAttempts st (xs ++ ys) = applyAttempts (applyAttempts st xs) ys :=
  List.foldl_append _ _ xs ys

theorem addLink_mem_links {st : BuildState} {l : Link} (h : l ∈ st.links)
    (s t : String) (ty : RelType) (str : ℚ) :
    l ∈ (addLink st s t ty str).links := by
  rcases addLink_cases st s t ty str with ⟨he, _⟩ | ⟨_, _, he⟩ <;> rw [he]
  · exact h
  · exact List.mem_append_left _ h

theorem addLink_mem_keys {st : BuildState} {k : String} (h : k ∈ st.addedLinks)
    (s t : String) (ty : RelType) (str : ℚ) :
    k ∈ (addLink st s t ty str).addedLinks := by
  rcases addLink_cases st s t ty str with ⟨he, _⟩ | ⟨_, _, he⟩ <;> rw [he]
  · exact h
  · exact List.mem_append_left _ h

theorem applyAttempts_mem_links {st : BuildState} {l : Link} (h : l ∈ st.links)
    (atts : List Attempt) : l ∈ (applyAttempts st atts).links := by
  induction atts generalizing st with
  | nil => exact h
  | cons a rest ih =>
    rw [applyAttempts_cons]
    exact ih (addLink_mem_links h _ _ _ _)

theorem applyAttempts_mem_keys {st : BuildState} {k : String} (h : k ∈ st.addedLinks)
    (atts : List Attempt) : k ∈ (applyAttempts st atts).addedLinks := by
  induction atts generalizing st with
  | nil => exact h
  | cons a rest ih =>
    rw [applyAttempts_cons]
    exact ih (addLink_mem_keys h _ _ _ _)

theorem Inv_empty : Inv ⟨[], []⟩ := by
  refine ⟨?_, ?_, List.Pairwise.nil⟩ <;> intro l hl <;> exact absurd hl (List.not_mem_nil l)

theorem addLink_inv {st : BuildState} (h : Inv st) (s t : String) (ty : RelType)
    (str : ℚ) : Inv (addLink st s t ty str) := by
  rcases addLink_cases st s t ty str with ⟨he, _⟩ | ⟨hk, hst, he⟩
  · rw [he]; exact h
  · rw [he]
    obtain ⟨h1, h2, h3⟩ := h
    refine ⟨?_, ?_, ?_⟩
    · intro l hl
      rcases List.mem_append.1 hl with hl | hl
      · exact h1 l hl
      · rw [List.mem_singleton] at hl
        subst hl
        exact hst
    · intro l hl
      rcases List.mem_append.1 hl with hl | hl
      · exact List.mem_append_left _ (h2 l hl)
      · rw [List.mem_singleton] at hl
        subst hl
        exact List.mem_append_right _ (List.mem_singleton_self _)
    · rw [List.pairwise_append]
      refine ⟨h3, List.pairwise_singleton _ _, ?_⟩
      intro l1 hl1 l2 hl2
      rw [List.mem_singleton] at hl2
      subst hl2
      intro hkey
      exact hk (hkey ▸ h2 l1 hl1)

theorem applyAttempts_inv {st : BuildState} (h : Inv st) (atts : List Attempt) :
    Inv (applyAttempts st atts) := by
  induction atts generalizing st with
  | nil => exact h
  | cons a rest ih =>
    rw [applyAttempts_cons]
    exact ih (addLink_inv h _ _ _ _)

theorem mem_applyAttempts {st : BuildState} {atts : List Attempt} {l : Link}
    (h : l ∈ (applyAttempts st atts).links) :
    l ∈ st.links ∨ ∃ a ∈ atts, l = ⟨a.source, a.target, a.type, a.strength⟩ := by
  induction atts generalizing st with
  | nil => exact Or.inl h
  | cons a rest ih =>
    rw [applyAttempts_cons] at h
    rcases ih h with h2 | h2
    · rcases addLink_cases st a.source a.target a.type a.strength with
        ⟨he, _⟩ | ⟨_, _, he⟩
      · rw [he] at h2
        exact Or.inl h2
      · rw [he] at h2
        rcases List.mem_append.1 h2 with h3 | h3
        · exact Or.inl h3
        · rw [List.mem_singleton] at h3
          exact Or.inr ⟨a, List.mem_cons_self a rest, h3⟩
    · obtain ⟨a2, ha2, he⟩ := h2
      exact Or.inr ⟨a2, List.mem_cons_of_mem _ ha2, he⟩

theorem find?_cons_pos {α : Type} (p : α → Bool) (x : α) (l : List α)
    (h : p x = true) : List.find? p (x :: l) = some x := by
  simp [List.find?, h]

theorem find?_cons_neg {α : Type} (p : α → Bool) (x : α) (l : List α)
    (h : p x = false) : List.find? p (x :: l) = List.find? p l := by
  simp [List.find?, h]

theorem applyAttempts_first_claim {atts : List Attempt} {st : BuildState}
    (hInv : Inv st) :
    ∀ l ∈ (applyAttempts st atts).links, l ∉ st.links →
      linkKey l.source l.target ∉ st.addedLinks ∧
      ∃ a, firstClaim atts l.source l.target = some a ∧
        a.type = l.type ∧ a.strength = l.strength := by
  induction atts generalizing st with
  | nil =>
    intro l hl hnl
    exact absurd hl hnl
  | cons a rest ih =>
    intro l hl hnl
    rw [applyAttempts_cons] at hl
    rcases addLink_cases st a.source a.target a.type a.strength with
      ⟨he, hwhy⟩ | ⟨hk, hst, he⟩
    · rw [he] at hl
      obtain ⟨hkey, a2, hfind, hty, hstr⟩ := ih hInv l hl hnl
      refine ⟨hkey, a2, ?_, hty, hstr⟩
      have hnoself : l.source ≠ l.target :=
        (applyAttempts_inv hInv rest).1 l hl
      have hpred : samePairB a.source a.target l.source l.target = false := by
        rw [Bool.eq_false_iff]
        intro hcon
        have hp := samePairB_iff.1 hcon
        rcases hwhy with hmem | heq
        · exact hkey ((samePair_key hp).symm ▸ hmem)
        · rcases hp with ⟨e1, e2⟩ | ⟨e1, e2⟩
          · exact hnoself (e1 ▸ e2 ▸ heq)
          · exact hnoself (e1 ▸ e2 ▸ heq.symm)
      show List.find? (fun x => samePairB x.source x.target l.source l.target)
        (a :: rest) = some a2
      rw [find?_cons_neg (fun x => samePairB x.source x.target l.source l.target)
        a rest hpred]
      exact hfind
    · rw [he] at hl
      by_cases hla : l = ⟨a.source, a.target, a.type, a.strength⟩
      · subst hla
        refine ⟨hk, a, ?_, rfl, rfl⟩
        show List.find? (fun x => samePairB x.source x.target a.source a.target)
          (a :: rest) = some a
        refine find?_cons_pos (fun x => samePairB x.source x.target a.source a.target)
          a rest ?_
        simp [samePairB]
      · have hInv1 : Inv (⟨st.links ++ [⟨a.source, a.target, a.type, a.strength⟩],
            st.addedLinks ++ [linkKey a.source a.target]⟩ : BuildState) := by
          rw [← he]
          exact addLink_inv hInv _ _ _ _
        have hnl1 : l ∉ (⟨st.links ++ [⟨a.source, a.target, a.type, a.strength⟩],
            st.addedLinks ++ [linkKey a.source a.target]⟩ : BuildState).links := by
          intro hmem
          rcases List.mem_append.1 hmem with h3 | h3
          · exact hnl h3
          · rw [List.mem_singleton] at h3
            exact hla h3
        obtain ⟨hkey1, a2, hfind, hty, hstr⟩ := ih hInv1 l hl hnl1
        have hkey : linkKey l.source l.target ∉ st.addedLinks := fun hm =>
          hkey1 (List.mem_append_left _ hm)
        have hkeyne : linkKey l.source l.target ≠ linkKey a.source a.target := by
          intro he2
          exact hkey1 (he2 ▸ List.mem_append_right _ (List.mem_singleton_self _))
        refine ⟨hkey, a2, ?_, hty, hstr⟩
        have hpred : samePairB a.source a.target l.source l.target = false := by
          rw [Bool.eq_false_iff]
          intro hcon
          exact hkeyne (samePair_key (samePairB_iff.1 hcon)).symm
        show List.find? (fun x => samePairB x.source x.target l.source l.target)
          (a :: rest) = some a2
        rw [find?_cons_neg (fun x => samePairB x.source x.target l.source l.target)
          a rest hpred]
        exact hfind

theorem simFold_eq (maxL : Nat) (sims : List Sim) :
    ∀ (st : BuildState) (counts : String → Nat),
      simFold maxL st counts sims = applyAttempts st (simAttemptList maxL counts sims) := by
  induction sims with
  | nil => intro st counts; rfl
  | cons s rest ih =>
    intro st counts
    rw [simFold, simAttemptList]
    by_cases h : counts s.source < maxL ∧ counts s.target < maxL
    · rw [if_pos h, if_pos h, applyAttempts_cons]
      exact ih _ _
    · rw [if_neg h, if_neg h]
      exact ih _ _

theorem apply_if (st : BuildState) (c : Bool) (xs : List Attempt) :
    (if c then applyAttempts st xs else st) = applyAttempts st (if c then xs else []) := by
  cases c
  · rfl
  · rfl

theorem buildGraphData_links (data : CatalogData) (opts : LinkOptions) :
    (buildGraphData data opts).links =
      (applyAttempts ⟨[], []⟩ (allAttempts data opts)).links := by
  unfold buildGraphData allAttempts
  simp only [simFold_eq, apply_if, applyAttempts_append]

theorem buildGraphData_inv (data : CatalogData) (opts : LinkOptions) :
    Inv ⟨(buildGraphData data opts).links,
      (applyAttempts ⟨[], []⟩ (allAttempts data opts)).addedLinks⟩ := by
  rw [buildGraphData_links]
  exact applyAttempts_inv Inv_empty _

theorem build_no_self_loop (data : CatalogData) (opts : LinkOptions) :
    ∀ l ∈ (buildGraphData data opts).links, l.source ≠ l.target := by
  rw [buildGraphData_links]
  exact (applyAttempts_inv Inv_empty _).1

theorem build_pairwise (data : CatalogData) (opts : LinkOptions) :
    (buildGraphData data opts).links.Pairwise fun l1 l2 =>
      ¬ samePair l1.source l1.target l2.source l2.target := by
  have h := (buildGraphData_inv data opts).2.2
  refine List.Pairwise.imp ?_ h
  intro l1 l2 hne hp
  exact hne (samePair_key hp)

theorem build_first_claim (data : CatalogData) (opts : LinkOptions) :
    ∀ l ∈ (buildGraphData data opts).links,
      ∃ a, firstClaim (allAttempts data opts) l.source l.target = some a ∧
        a.type = l.type ∧ a.strength = l.strength := by
  intro l hl
  rw [buildGraphData_links] at hl
  have h := applyAttempts_first_claim Inv_empty l hl (List.not_mem_nil l)
  exact h.2

theorem buildGraphData_links_split (data : CatalogData) (opts : LinkOptions) :
    (buildGraphData data opts).links =
      (if opts.showSimilarMethods = true then
          simFold opts.maxSimilarLinks
            (applyAttempts ⟨[], []⟩ (preAttempts data opts)) (fun _ => 0)
            (sortedSims data.methods data.pipelineSteps opts.similarityThreshold)
        else applyAttempts ⟨[], []⟩ (preAttempts data opts)).links := by
  unfold buildGraphData preAttempts
  simp only [apply_if, applyAttempts_append]

theorem mem_listPairs {α : Type} {xs : List α} {p : α × α}
    (h : p ∈ listPairs xs) : p.1 ∈ xs ∧ p.2 ∈ xs := by
  induction xs with
  | nil => cases h
  | cons x rest ih =>
    rw [listPairs] at h
    rcases List.mem_append.1 h with h2 | h2
    · obtain ⟨y, hy, he⟩ := List.mem_map.1 h2
      subst he
      exact ⟨List.mem_cons_self x rest, List.mem_cons_of_mem x hy⟩
    · obtain ⟨h3, h4⟩ := ih h2
      exact ⟨List.mem_cons_of_mem _ h3, List.mem_cons_of_mem _ h4⟩

theorem mem_explicitAttempts {methods : List MethodRecord} {nodeIds : List String}
    {a : Attempt} (h : a ∈ explicitAttempts methods nodeIds) :
    ∃ m ∈ methods, ∃ r ∈ m.related_method_ids, r ∈ nodeIds ∧
      a = ⟨m.id, r, .explicit, 1⟩ := by
  unfold explicitAttempts at h
  rw [List.mem_flatMap] at h
  obtain ⟨m, hm, hmem⟩ := h
  rw [List.mem_map] at hmem
  obtain ⟨r, hr, he⟩ := hmem
  rw [List.mem_filter] at hr
  exact ⟨m, hm, r, hr.1, contains_iff_mem.1 hr.2, he.symm⟩

theorem mem_sameStepAttempts {methods : List MethodRecord}
    {steps : List PipelineStep} {a : Attempt}
    (h : a ∈ sameStepAttempts methods steps) :
    ∃ m1 ∈ methods, ∃ m2 ∈ methods, a = ⟨m1.id, m2.id, .sameStep, 0.3⟩ := by
  unfold sameStepAttempts at h
  rw [List.mem_flatMap] at h
  obtain ⟨step, hstep, hmem⟩ := h
  rw [List.mem_map] at hmem
  obtain ⟨p, hp, he⟩ := hmem
  obtain ⟨h1, h2⟩ := mem_listPairs hp
  rw [List.mem_filter] at h1 h2
  exact ⟨p.1, h1.1, p.2, h2.1, he.symm⟩

theorem mem_sharedModalityAttempts {methods : List MethodRecord} {a : Attempt}
    (h : a ∈ sharedModalityAttempts methods) :
    ∃ m1 ∈ methods, ∃ m2 ∈ methods, a = ⟨m1.id, m2.id, .sharedModality,
      0.4 + (countShared m1.modalities m2.modalities : ℚ) * 0.1⟩ := by
  unfold sharedModalityAttempts at h
  rw [List.mem_filterMap] at h
  obtain ⟨p, hp, he⟩ := h
  obtain ⟨h1, h2⟩ := mem_listPairs hp
  dsimp only at he
  split at he
  · exact ⟨p.1, h1, p.2, h2, (Option.some.inj he).symm⟩
  · cases he

theorem mem_sharedTaskAttempts {methods : List MethodRecord} {a : Attempt}
    (h : a ∈ sharedTaskAttempts methods) :
    ∃ m1 ∈ methods, ∃ m2 ∈ methods, a = ⟨m1.id, m2.id, .sharedTask,
      0.3 + (countShared m1.tasks m2.tasks : ℚ) * 0.15⟩ := by
  unfold sharedTaskAttempts at h
  rw [List.mem_filterMap] at h
  obtain ⟨p, hp, he⟩ := h
  obtain ⟨h1, h2⟩ := mem_listPairs hp
  dsimp only at he
  split at he
  · exact ⟨p.1, h1, p.2, h2, (Option.some.inj he).symm⟩
  · cases he

theorem mem_simCandidates {methods : List MethodRecord}
    {steps : List PipelineStep} {threshold : ℚ} {s : Sim}
    (h : s ∈ simCandidates methods steps threshold) :
    ∃ m1 ∈ methods, ∃ m2 ∈ methods,
      threshold ≤ calculateSimilarity m1 m2 steps ∧
      s = ⟨m1.id, m2.id, calculateSimilarity m1 m2 steps⟩ := by
  unfold simCandidates at h
  rw [List.mem_filterMap] at h
  obtain ⟨p, hp, he⟩ := h
  obtain ⟨h1, h2⟩ := mem_listPairs hp
  dsimp only at he
  split at he
  · next hcond => exact ⟨p.1, h1, p.2, h2, hcond, (Option.some.inj he).symm⟩
  · cases he

theorem mem_sortedSims {methods : List MethodRecord} {steps : List PipelineStep}
    {threshold : ℚ} {s : Sim} (h : s ∈ sortedSims methods steps threshold) :
    s ∈ simCandidates methods steps threshold := by
  unfold sortedSims at h
  exact (List.Perm.mem_iff (List.mergeSort_perm _ _)).1 h

theorem mem_simAttemptList (maxL : Nat) (sims : List Sim) :
    ∀ (counts : String → Nat) (a : Attempt), a ∈ simAttemptList maxL counts sims →
      ∃ s ∈ sims, a = ⟨s.source, s.target, .similar, s.similarity⟩ := by
  induction sims with
  | nil =>
    intro counts a h
    cases h
  | cons s rest ih =>
    intro counts a h
    simp only [simAttemptList] at h
    by_cases hgate : counts s.source < maxL ∧ counts s.target < maxL
    · rw [if_pos hgate] at h
      rcases List.mem_cons.1 h with he | hmem
      · exact ⟨s, List.mem_cons_self _ _, he⟩
      · obtain ⟨s2, hs2, he⟩ := ih _ _ hmem
        exact ⟨s2, List.mem_cons_of_mem _ hs2, he⟩
    · rw [if_neg hgate] at h
      obtain ⟨s2, hs2, he⟩ := ih _ _ h
      exact ⟨s2, List.mem_cons_of_mem _ hs2, he⟩

theorem mem_if_list {c : Bool} {xs : List Attempt} {a : Attempt}
    (h : a ∈ (if c = true then xs else [])) : a ∈ xs := by
  cases c
  · exact absurd h (List.not_mem_nil a)
  · exact h

theorem preAttempts_not_similar (data : CatalogData) (opts : LinkOptions) :
    ∀ a ∈ preAttempts data opts, a.type ≠ RelType.similar := by
  intro a ha
  unfold preAttempts at ha
  rcases List.mem_append.1 ha with h | h
  · rcases List.mem_append.1 h with h | h
    · rcases List.mem_append.1 h with h | h
      · obtain ⟨m, _, r, _, _, he⟩ := mem_explicitAttempts (mem_if_list h)
        subst he
        intro hcon
        cases hcon
      · obtain ⟨m1, _, m2, _, he⟩ := mem_sameStepAttempts (mem_if_list h)
        subst he
        intro hcon
        cases hcon
    · obtain ⟨m1, _, m2, _, he⟩ := mem_sharedModalityAttempts (mem_if_list h)
      subst he
      intro hcon
      cases hcon
  · obtain ⟨m1, _, m2, _, he⟩ := mem_sharedTaskAttempts (mem_if_list h)
    subst he
    intro hcon
    cases hcon

theorem countSimilar_append (xs ys : List Link) (v : String) :
    countSimilar (xs ++ ys) v = countSimilar xs v + countSimilar ys v := by
  unfold countSimilar
  rw [List.filter_append, List.length_append]

theorem countSimilar_singleton (l : Link) (v : String) :
    countSimilar [l] v =
      if (l.type == RelType.similar && (l.source == v || l.target == v)) = true
      then 1 else 0 := by
  unfold countSimilar
  rw [List.filter_cons, List.filter_nil]
  split
  · rfl
  · rfl

theorem countSimilar_eq_zero {links : List Link}
    (h : ∀ l ∈ links, l.type ≠ RelType.similar) (v : String) :
    countSimilar links v = 0 := by
  unfold countSimilar
  rw [List.length_eq_zero, List.filter_eq_nil_iff]
  intro l hl
  simp [h l hl]

theorem countSimilar_addLink (st : BuildState) (s t : String) (ty : RelType)
    (str : ℚ) (v : String) :
    countSimilar (addLink st s t ty str).links v ≤
      countSimilar st.links v + (if s = v ∨ t = v then 1 else 0) := by
  rcases addLink_cases st s t ty str with ⟨he, _⟩ | ⟨_, _, he⟩ <;> rw [he]
  · exact Nat.le_add_right _ _
  · show countSimilar (st.links ++ [⟨s, t, ty, str⟩]) v ≤ _
    rw [countSimilar_append, countSimilar_singleton]
    have hle : (if ((⟨s, t, ty, str⟩ : Link).type == RelType.similar &&
        ((⟨s, t, ty, str⟩ : Link).source == v || (⟨s, t, ty, str⟩ : Link).target == v)) = true
        then 1 else 0) ≤ (if s = v ∨ t = v then 1 else 0) := by
      by_cases hsv : s = v ∨ t = v
      · rw [if_pos hsv]
        split <;> omega
      · rw [if_neg hsv]
        push_neg at hsv
        have hb : ((⟨s, t, ty, str⟩ : Link).type == RelType.similar &&
            ((⟨s, t, ty, str⟩ : Link).source == v ||
              (⟨s, t, ty, str⟩ : Link).target == v)) = false := by
          show (ty == RelType.similar && (s == v || t == v)) = false
          have h1 : (s == v) = false := beq_eq_false_iff_ne.2 hsv.1
          have h2 : (t == v) = false := beq_eq_false_iff_ne.2 hsv.2
          rw [h1, h2]
          simp
        rw [hb]
        simp
    omega

theorem bumpTo2_apply (counts : String → Nat) (s t : String) (a b : Nat)
    (w : String) :
    bumpTo (bumpTo counts s a) t b w =
      if w = t then b else if w = s then a else counts w := rfl

theorem simFold_cap (maxL : Nat) (sims : List Sim) :
    ∀ (st : BuildState) (counts : String → Nat),
      (∀ v, countSimilar st.links v ≤ counts v) →
      (∀ v, counts v ≤ maxL) →
      ∀ v, countSimilar (simFold maxL st counts sims).links v ≤ maxL := by
  induction sims with
  | nil =>
    intro st counts h1 h2 v
    exact le_trans (h1 v) (h2 v)
  | cons s rest ih =>
    intro st counts h1 h2 v
    simp only [simFold]
    by_cases hgate : counts s.source < maxL ∧ counts s.target < maxL
    · rw [if_pos hgate]
      obtain ⟨hg1, hg2⟩ := hgate
      refine ih _ _ ?_ ?_ v
      · intro w
        have hstep := countSimilar_addLink st s.source s.target
          RelType.similar s.similarity w
        rw [bumpTo2_apply]
        have hite : (if s.source = w ∨ s.target = w then 1 else 0) ≤ 1 := by
          split <;> omega
        by_cases hw1 : w = s.target
        · rw [if_pos hw1]
          have h4 := h1 w
          subst hw1
          omega
        · rw [if_neg hw1]
          by_cases hw2 : w = s.source
          · rw [if_pos hw2]
            have h4 := h1 w
            subst hw2
            omega
          · rw [if_neg hw2]
            have hz : (if s.source = w ∨ s.target = w then 1 else 0) = 0 := by
              rw [if_neg]
              intro hcon
              rcases hcon with h | h
              · exact hw2 h.symm
              · exact hw1 h.symm
            have h4 := h1 w
            omega
      · intro w
        rw [bumpTo2_apply]
        by_cases hw1 : w = s.target
        · rw [if_pos hw1]
          omega
        · rw [if_neg hw1]
          by_cases hw2 : w = s.source
          · rw [if_pos hw2]
            omega
          · rw [if_neg hw2]
            exact h2 w
    · rw [if_neg hgate]
      exact ih st counts h1 h2 v

theorem build_similar_cap (data : CatalogData) (opts : LinkOptions) (v : String) :
    countSimilar (buildGraphData data opts).links v ≤ opts.maxSimilarLinks := by
  have hpre : ∀ l ∈ (applyAttempts ⟨[], []⟩ (preAttempts data opts)).links,
      l.type ≠ RelType.similar := by
    intro l hl
    rcases mem_applyAttempts hl with h | ⟨a, ha, he⟩
    · exact absurd h (List.not_mem_nil l)
    · subst he
      exact preAttempts_not_similar data opts a ha
  rw [buildGraphData_links_split]
  by_cases hc : opts.showSimilarMethods = true
  · rw [if_pos hc]
    refine simFold_cap _ _ _ _ ?_ ?_ v
    · intro w
      rw [countSimilar_eq_zero hpre w]
    · intro w
      exact Nat.zero_le _
  · rw [if_neg hc]
    rw [countSimilar_eq_zero hpre v]
    exact Nat.zero_le _

theorem bump_bump_apply (f : String → Nat) (s t v : String) :
    bump (bump f s) t v =
      f v + (if s = v then 1 else 0) + (if t = v then 1 else 0) := by
  unfold bump
  by_cases h1 : v = t
  · subst h1
    by_cases h2 : v = s
    · subst h2
      simp
    · have h2s : s ≠ v := fun e => h2 e.symm
      have h2t : ¬ v = s := h2
      simp [h2t, h2s]
  · have h1t : t ≠ v := fun e => h1 e.symm
    by_cases h2 : v = s
    · subst h2
      simp [h1, h1t]
    · have h2s : s ≠ v := fun e => h2 e.symm
      simp [h1, h2, h1t, h2s]

theorem degreeMap_apply (links : List Link) (v : String) :
    degreeMap links v = (links.filter fun l => l.source == v).length
      + (links.filter fun l => l.target == v).length := by
  suffices h : ∀ f0 : String → Nat,
      (links.foldl (fun f l => bump (bump f l.source) l.target) f0) v =
        f0 v + ((links.filter fun l => l.source == v).length
          + (links.filter fun l => l.target == v).length) by
    have h2 := h (fun _ => 0)
    rw [degreeMap, h2]
    omega
  induction links with
  | nil =>
    intro f0
    simp
  | cons l rest ih =>
    intro f0
    rw [List.foldl_cons, ih, List.filter_cons, List.filter_cons, bump_bump_apply]
    by_cases h1 : l.source = v <;> by_cases h2 : l.target = v <;>
      simp [h1, h2] <;> omega

theorem incident_split {links : List Link}
    (hns : ∀ l ∈ links, l.source ≠ l.target) (v : String) :
    (links.filter fun l => l.source == v || l.target == v).length =
      (links.filter fun l => l.source == v).length
        + (links.filter fun l => l.target == v).length := by
  induction links with
  | nil => simp
  | cons l rest ih =>
    have hl := hns l (List.mem_cons_self l rest)
    have hrest : ∀ l2 ∈ rest, l2.source ≠ l2.target :=
      fun l2 h => hns l2 (List.mem_cons_of_mem _ h)
    have ihr := ih hrest
    rw [List.filter_cons, List.filter_cons, List.filter_cons]
    by_cases h1 : (l.source == v) = true <;> by_cases h2 : (l.target == v) = true
    · exact absurd ((beq_iff_eq.1 h1).trans (beq_iff_eq.1 h2).symm) hl
    · have ho : (l.source == v || l.target == v) = true := by
        rw [h1]
        rfl
      rw [if_pos ho, if_pos h1, if_neg h2]
      simp only [List.length_cons]
      omega
    · have ho : (l.source == v || l.target == v) = true := by
        rw [h2, Bool.or_true]
      rw [if_pos ho, if_neg h1, if_pos h2]
      simp only [List.length_cons]
      omega
    · have hf1 : (l.source == v) = false := Bool.eq_false_iff.2 h1
      have hf2 : (l.target == v) = false := Bool.eq_false_iff.2 h2
      have ho : ¬ ((l.source == v || l.target == v) = true) := by
        rw [hf1, hf2]
        exact Bool.false_ne_true
      rw [if_neg ho, if_neg h1, if_neg h2]
      omega

theorem mem_map_degree {nodes0 : List GraphNode} {L : List Link} {n : GraphNode}
    (h : n ∈ nodes0.map fun n0 => { n0 with degree := degreeMap L n0.id }) :
    n.degree = degreeMap L n.id := by
  rw [List.mem_map] at h
  obtain ⟨n0, _, he⟩ := h
  subst he
  rfl

theorem build_nodes_eq (data : CatalogData) (opts : LinkOptions) :
    (buildGraphData data opts).nodes = (data.methods.map mkNode).map
      fun n0 => { n0 with degree := degreeMap (buildGraphData data opts).links n0.id } :=
  rfl

theorem build_degree_field (data : CatalogData) (opts : LinkOptions) :
    ∀ n ∈ (buildGraphData data opts).nodes,
      n.degree = degreeMap (buildGraphData data opts).links n.id := by
  intro n hn
  rw [build_nodes_eq] at hn
  exact mem_map_degree hn

theorem build_degree_count (data : CatalogData) (opts : LinkOptions) :
    ∀ n ∈ (buildGraphData data opts).nodes,
      n.degree = ((buildGraphData data opts).links.filter
        fun l => l.source == n.id || l.target == n.id).length := by
  intro n hn
  rw [build_degree_field data opts n hn, degreeMap_apply,
    incident_split (build_no_self_loop data opts) n.id]

theorem listPairs_map {α β : Type} (g : α → β) (xs : List α) :
    listPairs (xs.map g) = (listPairs xs).map fun p => (g p.1, g p.2) := by
  induction xs with
  | nil => rfl
  | cons x rest ih =>
    rw [List.map_cons, listPairs, listPairs, ih, List.map_append,
      List.map_map, List.map_map]
    rfl

theorem filter_twice (p : String → Bool) (l : List String) :
    (l.filter p).filter p = l.filter p := by
  rw [List.filter_filter]
  exact List.filter_congr fun a _ => Bool.and_self _

theorem explicitAttempts_prune (methods : List MethodRecord) (ids : List String) :
    explicitAttempts (methods.map (pruneMethod ids)) ids =
      explicitAttempts methods ids := by
  unfold explicitAttempts
  rw [List.flatMap_map]
  refine congrArg (List.flatMap methods) ?_
  funext m
  show (((m.related_method_ids.filter fun r => ids.contains r).filter
      fun r => ids.contains r).map fun r => (⟨m.id, r, .explicit, 1⟩ : Attempt)) = _
  rw [filter_twice]

theorem sameStepAttempts_prune (methods : List MethodRecord) (ids : List String)
    (steps : List PipelineStep) :
    sameStepAttempts (methods.map (pruneMethod ids)) steps =
      sameStepAttempts methods steps := by
  unfold sameStepAttempts
  refine congrArg (List.flatMap steps) ?_
  funext step
  rw [List.filter_map, listPairs_map, List.map_map]
  rfl

theorem sharedModalityAttempts_prune (methods : List MethodRecord) (ids : List String) :
    sharedModalityAttempts (methods.map (pruneMethod ids)) =
      sharedModalityAttempts methods := by
  unfold sharedModalityAttempts
  rw [listPairs_map, List.filterMap_map]
  rfl

theorem sharedTaskAttempts_prune (methods : List MethodRecord) (ids : List String) :
    sharedTaskAttempts (methods.map (pruneMethod ids)) =
      sharedTaskAttempts methods := by
  unfold sharedTaskAttempts
  rw [listPairs_map, List.filterMap_map]
  rfl

theorem simCandidates_prune (methods : List MethodRecord) (ids : List String)
    (steps : List PipelineStep) (threshold : ℚ) :
    simCandidates (methods.map (pruneMethod ids)) steps threshold =
      simCandidates methods steps threshold := by
  unfold simCandidates
  rw [listPairs_map, List.filterMap_map]
  rfl

theorem prune_ids (methods : List MethodRecord) (ids : List String) :
    (methods.map (pruneMethod ids)).map (fun m => m.id) =
      methods.map (fun m => m.id) := by
  rw [List.map_map]
  rfl

theorem allAttempts_prune (data : CatalogData) (opts : LinkOptions) :
    allAttempts (pruneStale data) opts = allAttempts data opts := by
  unfold allAttempts
  simp only [pruneStale]
  rw [prune_ids, explicitAttempts_prune, sameStepAttempts_prune,
    sharedModalityAttempts_prune, sharedTaskAttempts_prune]
  unfold sortedSims
  rw [simCandidates_prune]

theorem prune_build_links (data : CatalogData) (opts : LinkOptions) :
    (buildGraphData (pruneStale data) opts).links =
      (buildGraphData data opts).links := by
  rw [buildGraphData_links, buildGraphData_links, allAttempts_prune]

theorem allAttempts_endpoints (data : CatalogData) (opts : LinkOptions) :
    ∀ a ∈ allAttempts data opts,
      a.source ∈ data.methods.map (fun m => m.id) ∧
      a.target ∈ data.methods.map (fun m => m.id) := by
  intro a ha
  unfold allAttempts at ha
  rcases List.mem_append.1 ha with h | h
  · rcases List.mem_append.1 h with h | h
    · rcases List.mem_append.1 h with h | h
      · rcases List.mem_append.1 h with h | h
        · obtain ⟨m, hm, r, hr, hrn, he⟩ := mem_explicitAttempts (mem_if_list h)
          subst he
          exact ⟨List.mem_map_of_mem _ hm, hrn⟩
        · obtain ⟨m1, h1, m2, h2, he⟩ := mem_sameStepAttempts (mem_if_list h)
          subst he
          exact ⟨List.mem_map_of_mem _ h1, List.mem_map_of_mem _ h2⟩
      · obtain ⟨m1, h1, m2, h2, he⟩ := mem_sharedModalityAttempts (mem_if_list h)
        subst he
        exact ⟨List.mem_map_of_mem _ h1, List.mem_map_of_mem _ h2⟩
    · obtain ⟨m1, h1, m2, h2, he⟩ := mem_sharedTaskAttempts (mem_if_list h)
      subst he
      exact ⟨List.mem_map_of_mem _ h1, List.mem_map_of_mem _ h2⟩
  · obtain ⟨s, hs, he⟩ := mem_simAttemptList _ _ _ _ (mem_if_list h)
    subst he
    obtain ⟨m1, h1, m2, h2, _, he2⟩ := mem_simCandidates (mem_sortedSims hs)
    subst he2
    exact ⟨List.mem_map_of_mem _ h1, List.mem_map_of_mem _ h2⟩

theorem build_endpoints (data : CatalogData) (opts : LinkOptions) :
    ∀ l ∈ (buildGraphData data opts).links,
      l.source ∈ data.methods.map (fun m => m.id) ∧
      l.target ∈ data.methods.map (fun m => m.id) := by
  intro l hl
  rw [buildGraphData_links] at hl
  rcases mem_applyAttempts hl with h | ⟨a, ha, he⟩
  · exact absurd h (List.not_mem_nil l)
  · subst he
    exact allAttempts_endpoints data opts a ha

theorem preApplied_not_similar (data : CatalogData) (opts : LinkOptions) :
    ∀ l ∈ (applyAttempts ⟨[], []⟩ (preAttempts data opts)).links,
      l.type ≠ RelType.similar := by
  intro l hl
  rcases mem_applyAttempts hl with h | ⟨a, ha, he⟩
  · exact absurd h (List.not_mem_nil l)
  · subst he
    exact preAttempts_not_similar data opts a ha

theorem build_similar_provenance (data : CatalogData) (opts : LinkOptions) :
    ∀ l ∈ (buildGraphData data opts).links, l.type = RelType.similar →
      ∃ m1 ∈ data.methods, ∃ m2 ∈ data.methods,
        l.source = m1.id ∧ l.target = m2.id ∧
        opts.similarityThreshold ≤ calculateSimilarity m1 m2 data.pipelineSteps ∧
        l.strength = calculateSimilarity m1 m2 data.pipelineSteps := by
  intro l hl hty
  rw [buildGraphData_links_split] at hl
  by_cases hc : opts.showSimilarMethods = true
  · rw [if_pos hc, simFold_eq] at hl
    rcases mem_applyAttempts hl with h | ⟨a, ha, he⟩
    · exact absurd hty (preApplied_not_similar data opts l h)
    · obtain ⟨s, hs, he2⟩ := mem_simAttemptList _ _ _ _ ha
      subst he2
      obtain ⟨m1, h1, m2, h2, hth, he3⟩ := mem_simCandidates (mem_sortedSims hs)
      subst he3
      subst he
      exact ⟨m1, h1, m2, h2, rfl, rfl, hth, rfl⟩
  · rw [if_neg hc] at hl
    exact absurd hty (preApplied_not_similar data opts l hl)

theorem lookup_mapSet_self {β : Type} (m : List (String × β)) (k : String) (v : β) :
    (mapSet m k v).lookup k = some v := by
  induction m with
  | nil => simp [mapSet, List.lookup]
  | cons e rest ih =>
    obtain ⟨k2, v2⟩ := e
    rw [mapSet]
    by_cases h : k2 = k
    · rw [if_pos h]
      simp [List.lookup]
    · rw [if_neg h]
      have hb : (k == k2) = false := beq_eq_false_iff_ne.2 fun e => h e.symm
      simp only [List.lookup, hb]
      exact ih

theorem lookup_mapSet_ne {β : Type} (m : List (String × β)) (k k2 : String) (v : β)
    (h : k2 ≠ k) : (mapSet m k v).lookup k2 = m.lookup k2 := by
  have hb : (k2 == k) = false := beq_eq_false_iff_ne.2 h
  induction m with
  | nil =>
    simp only [mapSet, List.lookup, hb]
  | cons e rest ih =>
    obtain ⟨k3, v3⟩ := e
    rw [mapSet]
    by_cases h3 : k3 = k
    · rw [if_pos h3]
      subst h3
      simp only [List.lookup, hb]
    · rw [if_neg h3]
      simp only [List.lookup]
      cases hc : k2 == k3
      · exact ih
      · rfl

theorem mem_mapSet {β : Type} {m : List (String × β)} {k : String} {v : β}
    {e : String × β} (he : e ∈ mapSet m k v) : e = (k, v) ∨ e ∈ m := by
  induction m with
  | nil =>
    rw [mapSet] at he
    rw [List.mem_singleton] at he
    exact Or.inl he
  | cons e2 rest ih =>
    obtain ⟨k2, v2⟩ := e2
    rw [mapSet] at he
    by_cases h : k2 = k
    · rw [if_pos h] at he
      rcases List.mem_cons.1 he with hc | hc
      · exact Or.inl hc
      · exact Or.inr (List.mem_cons_of_mem _ hc)
    · rw [if_neg h] at he
      rcases List.mem_cons.1 he with hc | hc
      · exact Or.inr (hc ▸ List.mem_cons_self _ _)
      · rcases ih hc with hc2 | hc2
        · exact Or.inl hc2
        · exact Or.inr (List.mem_cons_of_mem _ hc2)

theorem keys_mapSet {β : Type} (m : List (String × β)) (k : String) (v : β) :
    (mapSet m k v).map Prod.fst =
      if k ∈ m.map Prod.fst then m.map Prod.fst else m.map Prod.fst ++ [k] := by
  induction m with
  | nil => simp [mapSet]
  | cons e rest ih =>
    obtain ⟨k2, v2⟩ := e
    rw [mapSet]
    by_cases h : k2 = k
    · rw [if_pos h]
      have hmem : k ∈ ((k2, v2) :: rest).map Prod.fst := by
        rw [List.map_cons, h]
        exact List.mem_cons_self _ _
      rw [if_pos hmem, List.map_cons, List.map_cons, h]
    · rw [if_neg h, List.map_cons, List.map_cons, ih]
      by_cases h2 : k ∈ rest.map Prod.fst
      · rw [if_pos h2, if_pos (List.mem_cons_of_mem _ h2)]
      · rw [if_neg h2, if_neg ?_]
        · simp
        · intro hcon
          rcases List.mem_cons.1 hcon with hc | hc
          · exact h hc.symm
          · exact h2 hc

theorem mem_keys_mapSet_of_mem {β : Type} {m : List (String × β)} {k2 : String}
    (h : k2 ∈ m.map Prod.fst) (k : String) (v : β) :
    k2 ∈ (mapSet m k v).map Prod.fst := by
  rw [keys_mapSet]
  by_cases hc : k ∈ m.map Prod.fst
  · rw [if_pos hc]
    exact h
  · rw [if_neg hc]
    exact List.mem_append_left _ h

theorem self_mem_keys_mapSet {β : Type} (m : List (String × β)) (k : String) (v : β) :
    k ∈ (mapSet m k v).map Prod.fst := by
  rw [keys_mapSet]
  by_cases hc : k ∈ m.map Prod.fst
  · rw [if_pos hc]
    exact hc
  · rw [if_neg hc]
    exact List.mem_append_right _ (List.mem_singleton_self _)

theorem nodup_keys_mapSet {β : Type} {m : List (String × β)}
    (h : (m.map Prod.fst).Nodup) (k : String) (v : β) :
    ((mapSet m k v).map Prod.fst).Nodup := by
  rw [keys_mapSet]
  by_cases hc : k ∈ m.map Prod.fst
  · rw [if_pos hc]
    exact h
  · rw [if_neg hc]
    simp [List.nodup_append, h, hc]

theorem lookup_some_mem {β : Type} {m : List (String × β)} {k : String} {v : β}
    (h : m.lookup k = some v) : (k, v) ∈ m := by
  induction m with
  | nil => cases h
  | cons e rest ih =>
    obtain ⟨k2, v2⟩ := e
    simp only [List.lookup] at h
    split at h
    · next heq =>
      have hk : k = k2 := beq_iff_eq.1 heq
      have hv : v2 = v := Option.some.inj h
      subst hk
      subst hv
      exact List.mem_cons_self _ _
    · exact List.mem_cons_of_mem _ (ih h)

theorem mem_keys_lookup {β : Type} {m : List (String × β)} {k : String}
    (h : k ∈ m.map Prod.fst) : ∃ v, m.lookup k = some v := by
  induction m with
  | nil => cases h
  | cons e rest ih =>
    obtain ⟨k2, v2⟩ := e
    rw [List.map_cons] at h
    by_cases hk : k2 = k
    · subst hk
      exact ⟨v2, by simp [List.lookup]⟩
    · have h2 : k ∈ rest.map Prod.fst := by
        rcases List.mem_cons.1 h with hc | hc
        · exact absurd hc.symm hk
        · exact hc
      obtain ⟨v, hv⟩ := ih h2
      refine ⟨v, ?_⟩
      have hb : (k == k2) = false := beq_eq_false_iff_ne.2 fun e => hk e.symm
      simp only [List.lookup, hb]
      exact hv

theorem clusterInit_entries (steps : List PipelineStep) :
    ∀ (m : List (String × ClusterRegion)),
      (∀ e ∈ m, e.2.id = e.1 ∧ e.2.nodes = ([] : List GraphNode)) →
      ∀ e ∈ steps.foldl clusterRegister m, e.2.id = e.1 ∧ e.2.nodes = [] := by
  induction steps with
  | nil => intro m hm; exact hm
  | cons step rest ih =>
    intro m hm
    rw [List.foldl_cons]
    refine ih _ ?_
    intro e he
    rcases mem_mapSet he with hc | hc
    · subst hc
      exact ⟨rfl, rfl⟩
    · exact hm e hc

theorem clusterInit_keys_nodup (steps : List PipelineStep) :
    ∀ (m : List (String × ClusterRegion)), (m.map Prod.fst).Nodup →
      ((steps.foldl clusterRegister m).map Prod.fst).Nodup := by
  induction steps with
  | nil => intro m hm; exact hm
  | cons step rest ih =>
    intro m hm
    rw [List.foldl_cons]
    exact ih _ (nodup_keys_mapSet hm _ _)

theorem clusterFold_keys_mono (steps : List PipelineStep) :
    ∀ (m : List (String × ClusterRegion)) (k : String), k ∈ m.map Prod.fst →
      k ∈ (steps.foldl clusterRegister m).map Prod.fst := by
  induction steps with
  | nil => intro m k hk; exact hk
  | cons step rest ih =>
    intro m k hk
    rw [List.foldl_cons]
    exact ih _ _ (mem_keys_mapSet_of_mem hk _ _)

theorem clusterInit_mem_keys (steps : List PipelineStep) :
    ∀ (m : List (String × ClusterRegion)), ∀ s ∈ steps,
      s.id ∈ (steps.foldl clusterRegister m).map Prod.fst := by
  induction steps with
  | nil =>
    intro m s hs
    cases hs
  | cons step rest ih =>
    intro m s hs
    rw [List.foldl_cons]
    rcases List.mem_cons.1 hs with hc | hc
    · subst hc
      exact clusterFold_keys_mono rest _ _ (self_mem_keys_mapSet m _ _)
    · exact ih _ s hc

theorem clusterInsert_keys (m : List (String × ClusterRegion)) (node : GraphNode) :
    (clusterInsert m node).map Prod.fst = m.map Prod.fst := by
  unfold clusterInsert
  cases hl : m.lookup node.pipelineStep with
  | none => rfl
  | some c =>
    rw [keys_mapSet]
    rw [if_pos ?_]
    have := lookup_some_mem hl
    exact List.mem_map_of_mem Prod.fst this

theorem clusterFold2_keys (nodes : List GraphNode) :
    ∀ (m : List (String × ClusterRegion)),
      (nodes.foldl clusterInsert m).map Prod.fst = m.map Prod.fst := by
  induction nodes with
  | nil => intro m; rfl
  | cons n rest ih =>
    intro m
    rw [List.foldl_cons, ih, clusterInsert_keys]

theorem clusterFold2_entries (nodes : List GraphNode) :
    ∀ (m : List (String × ClusterRegion)),
      (∀ e ∈ m, e.2.id = e.1 ∧ ∀ n2 ∈ e.2.nodes, n2.pipelineStep = e.1) →
      ∀ e ∈ nodes.foldl clusterInsert m,
        e.2.id = e.1 ∧ ∀ n2 ∈ e.2.nodes, n2.pipelineStep = e.1 := by
  induction nodes with
  | nil => intro m hm; exact hm
  | cons n rest ih =>
    intro m hm
    rw [List.foldl_cons]
    refine ih _ ?_
    intro e he
    unfold clusterInsert at he
    cases hl : m.lookup n.pipelineStep with
    | none =>
      rw [hl] at he
      exact hm e he
    | some c =>
      rw [hl] at he
      rcases mem_mapSet he with hc | hc
      · subst hc
        obtain ⟨hid, hns⟩ := hm _ (lookup_some_mem hl)
        refine ⟨hid, ?_⟩
        intro n2 hn2
        rcases List.mem_append.1 hn2 with h2 | h2
        · exact hns n2 h2
        · rw [List.mem_singleton] at h2
          subst h2
          rfl
      · exact hm e hc

theorem clusterFold2_lookup (nodes : List GraphNode) :
    ∀ (m : List (String × ClusterRegion)) (k : String),
      (nodes.foldl clusterInsert m).lookup k =
        (m.lookup k).map fun c =>
          ⟨c.id, c.name, c.nodes ++ nodes.filter fun n => n.pipelineStep == k⟩ := by
  induction nodes with
  | nil =>
    intro m k
    show m.lookup k = _
    cases hl : m.lookup k with
    | none => rfl
    | some c => simp
  | cons n rest ih =>
    intro m k
    rw [List.foldl_cons, ih]
    unfold clusterInsert
    cases hl : m.lookup n.pipelineStep with
    | none =>
      by_cases hk : n.pipelineStep = k
      · subst hk
        rw [hl]
        rfl
      · rw [List.filter_cons]
        have hb : (n.pipelineStep == k) = false := beq_eq_false_iff_ne.2 hk
        rw [hb]
        simp
    | some c =>
      by_cases hk : n.pipelineStep = k
      · subst hk
        rw [lookup_mapSet_self, hl, List.filter_cons]
        have hb : (n.pipelineStep == n.pipelineStep) = true := beq_self_eq_true _
        rw [hb]
        simp
      · rw [lookup_mapSet_ne _ _ _ _ fun e => hk e.symm, List.filter_cons]
        have hb : (n.pipelineStep == k) = false := beq_eq_false_iff_ne.2 hk
        rw [hb]
        simp

theorem clusterInit_entries0 (steps : List PipelineStep) :
    ∀ e ∈ clusterInit steps, e.2.id = e.1 ∧ e.2.nodes = [] := by
  refine clusterInit_entries steps [] ?_
  intro e h
  cases h

theorem clusterF_entries (nodes : List GraphNode) (steps : List PipelineStep) :
    ∀ e ∈ nodes.foldl clusterInsert (clusterInit steps),
      e.2.id = e.1 ∧ ∀ n2 ∈ e.2.nodes, n2.pipelineStep = e.1 := by
  refine clusterFold2_entries nodes _ ?_
  intro e he
  obtain ⟨h1, h2⟩ := clusterInit_entries0 steps e he
  refine ⟨h1, ?_⟩
  rw [h2]
  intro n2 h
  cases h

theorem mem_regions {nodes : List GraphNode} {steps : List PipelineStep}
    {r : ClusterRegion} (h : r ∈ computeClusterHulls nodes steps) :
    ∃ e ∈ nodes.foldl clusterInsert (clusterInit steps), r = e.2 ∧ r.nodes ≠ [] := by
  unfold computeClusterHulls at h
  obtain ⟨hmem, hcond⟩ := List.mem_filter.1 h
  obtain ⟨e, he, hre⟩ := List.mem_map.1 hmem
  refine ⟨e, he, hre.symm, ?_⟩
  have hpos := of_decide_eq_true hcond
  intro hnil
  rw [hnil] at hpos
  simp at hpos

theorem cluster_types (nodes : List GraphNode) (steps : List PipelineStep) :
    ∀ r ∈ computeClusterHulls nodes steps, ∀ n2 ∈ r.nodes,
      r.id = n2.pipelineStep := by
  intro r hr n2 hn2
  obtain ⟨e, he, hre, _⟩ := mem_regions hr
  obtain ⟨h1, h2⟩ := clusterF_entries nodes steps e he
  subst hre
  rw [h1]
  exact (h2 n2 hn2).symm

theorem cluster_nonempty (nodes : List GraphNode) (steps : List PipelineStep) :
    ∀ r ∈ computeClusterHulls nodes steps, r.nodes ≠ [] := by
  intro r hr
  obtain ⟨e, he, hre, hne⟩ := mem_regions hr
  exact hne

theorem cluster_covers (nodes : List GraphNode) (steps : List PipelineStep) :
    ∀ n ∈ nodes, n.pipelineStep ∈ steps.map (fun s => s.id) →
      ∃ r ∈ computeClusterHulls nodes steps, n ∈ r.nodes := by
  intro n hn hstep
  obtain ⟨s, hs, hsid⟩ := List.mem_map.1 hstep
  have hkey : n.pipelineStep ∈ (clusterInit steps).map Prod.fst := by
    rw [← hsid]
    exact clusterInit_mem_keys steps [] s hs
  obtain ⟨c0, hc0⟩ := mem_keys_lookup hkey
  have hF := clusterFold2_lookup nodes (clusterInit steps) n.pipelineStep
  rw [hc0] at hF
  have hmemF : (n.pipelineStep, (⟨c0.id, c0.name, c0.nodes ++ nodes.filter
      fun n2 => n2.pipelineStep == n.pipelineStep⟩ : ClusterRegion)) ∈
      nodes.foldl clusterInsert (clusterInit steps) := lookup_some_mem hF
  have hnin : n ∈ (⟨c0.id, c0.name, c0.nodes ++ nodes.filter
      fun n2 => n2.pipelineStep == n.pipelineStep⟩ : ClusterRegion).nodes := by
    show n ∈ c0.nodes ++ _
    refine List.mem_append_right _ ?_
    rw [List.mem_filter]
    exact ⟨hn, beq_self_eq_true _⟩
  refine ⟨_, ?_, hnin⟩
  unfold computeClusterHulls
  rw [List.mem_filter]
  refine ⟨List.mem_map_of_mem _ hmemF, decide_eq_true ?_⟩
  exact List.length_pos_of_mem hnin

theorem cluster_unique (nodes : List GraphNode) (steps : List PipelineStep) :
    ∀ r1 ∈ computeClusterHulls nodes steps, ∀ r2 ∈ computeClusterHulls nodes steps,
      r1.id = r2.id → r1 = r2 := by
  intro r1 h1 r2 h2 heq
  obtain ⟨e1, he1, hre1, _⟩ := mem_regions h1
  obtain ⟨e2, he2, hre2, _⟩ := mem_regions h2
  have hk : ((nodes.foldl clusterInsert (clusterInit steps)).map Prod.fst).Nodup := by
    rw [clusterFold2_keys]
    exact clusterInit_keys_nodup steps [] List.nodup_nil
  have hids : e1.1 = e2.1 := by
    have g1 := (clusterF_entries nodes steps e1 he1).1
    have g2 := (clusterF_entries nodes steps e2 he2).1
    calc e1.1 = e1.2.id := g1.symm
    _ = r1.id := by rw [hre1]
    _ = r2.id := heq
    _ = e2.2.id := by rw [hre2]
    _ = e2.1 := g2
  have he := List.inj_on_of_nodup_map hk he1 he2 hids
  rw [hre1, hre2, he]

theorem countShared_eq_card (xs ys : List String) (hx : xs.Nodup) :
    countShared xs ys = (xs.toFinset ∩ ys.toFinset).card := by
  unfold countShared
  have hnd : (xs.filter fun x => ys.contains x).Nodup := hx.filter _
  rw [← List.toFinset_card_of_nodup hnd]
  congr 1
  ext z
  simp [List.mem_filter, contains_iff_mem]

theorem countShared_comm (xs ys : List String) (hx : xs.Nodup) (hy : ys.Nodup) :
    countShared xs ys = countShared ys xs := by
  rw [countShared_eq_card xs ys hx, countShared_eq_card ys xs hy, Finset.inter_comm]

theorem stepProximity_comm (steps : List PipelineStep) (p1 p2 : String) :
    stepProximity steps p1 p2 = stepProximity steps p2 p1 := by
  unfold stepProximity
  cases h1 : steps.find? fun s => s.id == p1 with
  | none =>
    cases h2 : steps.find? fun s => s.id == p2 with
    | none => rfl
    | some s2 => rfl
  | some s1 =>
    cases h2 : steps.find? fun s => s.id == p2 with
    | none => rfl
    | some s2 =>
      dsimp only
      have habs : (s1.order - s2.order).natAbs = (s2.order - s1.order).natAbs := by
        omega
      rw [habs]

theorem stepProximity_nonneg (steps : List PipelineStep) (p1 p2 : String) :
    0 ≤ stepProximity steps p1 p2 := by
  unfold stepProximity
  cases steps.find? fun s => s.id == p1 with
  | none => norm_num
  | some s1 =>
    cases steps.find? fun s => s.id == p2 with
    | none => norm_num
    | some s2 =>
      dsimp only
      split
      · norm_num
      · split <;> norm_num

theorem rawScore_nonneg (m1 m2 : MethodRecord) (steps : List PipelineStep) :
    0 ≤ rawScore m1 m2 steps := by
  unfold rawScore
  have h1 : (0:ℚ) ≤ (countShared m1.modalities m2.modalities : ℚ) * 0.25 := by
    positivity
  have h2 : (0:ℚ) ≤ (countShared m1.tasks m2.tasks : ℚ) * 0.2 := by positivity
  have h3 : (0:ℚ) ≤ (countShared m1.tags m2.tags : ℚ) * 0.1 := by positivity
  have h4 := stepProximity_nonneg steps m1.pipeline_step m2.pipeline_step
  have h5 : (0:ℚ) ≤ if m1.maturity = m2.maturity then (0.05:ℚ) else 0 := by
    split <;> norm_num
  have h6 : (0:ℚ) ≤ if m1.evidence_type = m2.evidence_type then (0.05:ℚ) else 0 := by
    split <;> norm_num
  linarith

theorem calculateSimilarity_self {m1 m2 : MethodRecord} (steps : List PipelineStep)
    (h : m1.id = m2.id) : calculateSimilarity m1 m2 steps = 0 := by
  unfold calculateSimilarity
  rw [if_pos h]

theorem calculateSimilarity_nonneg (m1 m2 : MethodRecord)
    (steps : List PipelineStep) : 0 ≤ calculateSimilarity m1 m2 steps := by
  unfold calculateSimilarity
  split
  · exact le_refl 0
  · exact le_min (rawScore_nonneg m1 m2 steps) (by norm_num)

theorem calculateSimilarity_le_one (m1 m2 : MethodRecord)
    (steps : List PipelineStep) : calculateSimilarity m1 m2 steps ≤ 1 := by
  unfold calculateSimilarity
  split
  · norm_num
  · exact min_le_right _ _

theorem calculateSimilarity_comm (m1 m2 : MethodRecord) (steps : List PipelineStep)
    (h1 : m1.modalities.Nodup) (h2 : m2.modalities.Nodup)
    (h3 : m1.tasks.Nodup) (h4 : m2.tasks.Nodup)
    (h5 : m1.tags.Nodup) (h6 : m2.tags.Nodup) :
    calculateSimilarity m1 m2 steps = calculateSimilarity m2 m1 steps := by
  unfold calculateSimilarity
  by_cases hid : m1.id = m2.id
  · rw [if_pos hid, if_pos hid.symm]
  · rw [if_neg hid, if_neg fun e => hid e.symm]
    unfold rawScore
    rw [countShared_comm _ _ h1 h2, countShared_comm _ _ h3 h4,
      countShared_comm _ _ h5 h6, stepProximity_comm]
    have hm : (if m1.maturity = m2.maturity then (0.05:ℚ) else 0) =
        (if m2.maturity = m1.maturity then (0.05:ℚ) else 0) := by
      by_cases h : m1.maturity = m2.maturity
      · rw [if_pos h, if_pos h.symm]
      · rw [if_neg h, if_neg fun e => h e.symm]
    have hev : (if m1.evidence_type = m2.evidence_type then (0.05:ℚ) else 0) =
        (if m2.evidence_type = m1.evidence_type then (0.05:ℚ) else 0) := by
      by_cases h : m1.evidence_type = m2.evidence_type
      · rw [if_pos h, if_pos h.symm]
      · rw [if_neg h, if_neg fun e => h e.symm]
    rw [hm, hev]

/-- C1: in every built graph the edge list contains at most one edge per
unordered pair of node identifiers, and the edge present for a pair
carries the type (and strength) of the first addLink call that claimed
the pair, where allAttempts lists all calls in stage priority order
(explicit, then same-step, then shared-modality, then shared-task, then
similarity). -/
theorem claim_C1_dedup_first_writer (data : CatalogData) (opts : LinkOptions) :
    ((buildGraphData data opts).links.Pairwise fun l1 l2 =>
      ¬ samePair l1.source l1.target l2.source l2.target) ∧
    ∀ l ∈ (buildGraphData data opts).links,
      ∃ a, firstClaim (allAttempts data opts) l.source l.target = some a ∧
        a.type = l.type ∧ a.strength = l.strength :=
  ⟨build_pairwise data opts, build_first_claim data opts⟩

/-- Witness for C1 at the concrete two-method catalog. -/
theorem claim_C1_witness :
    (⟨"mA", "mB", RelType.explicit, 1⟩ : Link) ∈ (buildGraphData catAB optsE).links ∧
    ∃ a, firstClaim (allAttempts catAB optsE) "mA" "mB" = some a ∧
      a.type = RelType.explicit ∧ a.strength = 1 := by
  have hmem : (⟨"mA", "mB", RelType.explicit, 1⟩ : Link) ∈
      (buildGraphData catAB optsE).links := by decide
  refine ⟨hmem, ?_⟩
  exact (claim_C1_dedup_first_writer catAB optsE).2 _ hmem

/-- C2 counterexample: a record with a duplicated modality entry breaks
the symmetry stated by the claim (score(dupA, dupB) counts the shared
modality twice, score(dupB, dupA) once). -/
theorem claim_C2_counterexample :
    calculateSimilarity dupA dupB [] ≠ calculateSimilarity dupB dupA [] := by
  have h1 : calculateSimilarity dupA dupB [] = 0.5 := by
    unfold calculateSimilarity rawScore stepProximity
    norm_num [dupA, dupB, countShared, min_def]
    rw [if_neg (by decide : ¬ ("dA" : String) = "dB"),
      if_neg (by decide : ¬ ("m1" : String) = "m2"),
      if_neg (by decide : ¬ ("e1" : String) = "e2")]
    norm_num
  have h2 : calculateSimilarity dupB dupA [] = 0.25 := by
    unfold calculateSimilarity rawScore stepProximity
    norm_num [dupA, dupB, countShared, min_def]
    rw [if_neg (by decide : ¬ ("dB" : String) = "dA"),
      if_neg (by decide : ¬ ("m2" : String) = "m1"),
      if_neg (by decide : ¬ ("e2" : String) = "e1")]
    norm_num
  rw [h1, h2]
  norm_num

/-- C2 amended: score is 0 on equal ids and always within [0, 1]; it is
symmetric whenever the modality, task and tag lists of both records are
duplicate-free (which holds for every validated catalog). -/
theorem claim_C2_amended (a b : MethodRecord) (steps : List PipelineStep) :
    (a.id = b.id → calculateSimilarity a b steps = 0) ∧
    0 ≤ calculateSimilarity a b steps ∧
    calculateSimilarity a b steps ≤ 1 ∧
    (a.modalities.Nodup → b.modalities.Nodup → a.tasks.Nodup → b.tasks.Nodup →
      a.tags.Nodup → b.tags.Nodup →
      calculateSimilarity a b steps = calculateSimilarity b a steps) :=
  ⟨fun h => calculateSimilarity_self steps h,
   calculateSimilarity_nonneg a b steps,
   calculateSimilarity_le_one a b steps,
   fun h1 h2 h3 h4 h5 h6 => calculateSimilarity_comm a b steps h1 h2 h3 h4 h5 h6⟩

/-- Witness for the amended C2 at concrete records. -/
theorem claim_C2_witness :
    calculateSimilarity mA mA [] = 0 ∧
    calculateSimilarity mA mB [] = calculateSimilarity mB mA [] :=
  ⟨(claim_C2_amended mA mA []).1 rfl,
   (claim_C2_amended mA mB []).2.2.2 (by decide) (by decide) (by decide)
     (by decide) (by decide) (by decide)⟩

/-- C3: in every built graph every identifier is incident to at most
maxSimilarLinks similarity-type edges; the other four edge types are
not counted by countSimilar. -/
theorem claim_C3_similar_cap (data : CatalogData) (opts : LinkOptions) (v : String) :
    countSimilar (buildGraphData data opts).links v ≤ opts.maxSimilarLinks :=
  build_similar_cap data opts v

/-- C4 counterexample: the handle returned for a zero-width surface does
not expose zoom-in at all (undefined in JS, so invoking it throws),
contradicting the claim that every listed operation is a safe no-op. -/
theorem claim_C4_counterexample :
    (createRelationshipGraphHandle 0).zoomIn = none := by
  norm_num [createRelationshipGraphHandle]

/-- C4 amended: on zero measured width createRelationshipGraph returns a
degenerate handle exposing only update and destroy (both safe no-ops);
zoom-in, zoom-out, zoom-to-fit and restart-layout are absent from it,
and a nonzero width yields the full six-operation handle.  The retry is
performed by the React wrapper at a fixed 50 ms delay, not here. -/
theorem claim_C4_amended :
    (createRelationshipGraphHandle 0).update = some HandleOp.noop ∧
    (createRelationshipGraphHandle 0).destroy = some HandleOp.noop ∧
    (createRelationshipGraphHandle 0).zoomToFit = none ∧
    (createRelationshipGraphHandle 0).zoomIn = none ∧
    (createRelationshipGraphHandle 0).zoomOut = none ∧
    (createRelationshipGraphHandle 0).resetSimulation = none ∧
    (createRelationshipGraphHandle 600).zoomIn = some HandleOp.active ∧
    (createRelationshipGraphHandle 600).zoomToFit = some HandleOp.active := by
  norm_num [createRelationshipGraphHandle]

/-- C5: in every built graph the stored degree of every node equals the
number of edges referencing its id as either endpoint. -/
theorem claim_C5_degree (data : CatalogData) (opts : LinkOptions) :
    ∀ n ∈ (buildGraphData data opts).nodes,
      n.degree = ((buildGraphData data opts).links.filter
        fun l => l.source == n.id || l.target == n.id).length :=
  build_degree_count data opts

/-- Witness for C5 at the concrete two-method catalog. -/
theorem claim_C5_witness :
    (⟨"mA", "Method A", "Method A", "stepX", ["text"], [], [], "mature", "paper",
      ["mB", "ghost", "mA"], some 2020, 1⟩ : GraphNode) ∈
        (buildGraphData catAB optsE).nodes ∧
    (1 : Nat) = ((buildGraphData catAB optsE).links.filter
      fun l => l.source == "mA" || l.target == "mA").length := by
  have hmem : (⟨"mA", "Method A", "Method A", "stepX", ["text"], [], [], "mature",
      "paper", ["mB", "ghost", "mA"], some 2020, 1⟩ : GraphNode) ∈
      (buildGraphData catAB optsE).nodes := by decide
  exact ⟨hmem, claim_C5_degree catAB optsE _ hmem⟩

/-- C6 counterexample: a node whose pipeline-step id matches no step is
placed in no cluster region at all, contradicting the claim that every
node is in exactly one region. -/
theorem claim_C6_counterexample :
    computeClusterHulls [orphanNode] [] = [] := by decide

/-- C6 amended: every node whose pipeline-step id occurs in the step
list is in exactly one region (a node with an unresolvable step id is
silently skipped); every region id equals the pipeline-step id of each
of its members; regions without members are excluded. -/
theorem claim_C6_amended (nodes : List GraphNode) (steps : List PipelineStep) :
    (∀ r ∈ computeClusterHulls nodes steps, ∀ n2 ∈ r.nodes, r.id = n2.pipelineStep) ∧
    (∀ r ∈ computeClusterHulls nodes steps, r.nodes ≠ []) ∧
    (∀ n ∈ nodes, n.pipelineStep ∈ steps.map (fun s => s.id) →
      ∃ r ∈ computeClusterHulls nodes steps, n ∈ r.nodes) ∧
    (∀ r1 ∈ computeClusterHulls nodes steps, ∀ r2 ∈ computeClusterHulls nodes steps,
      r1.id = r2.id → r1 = r2) :=
  ⟨cluster_types nodes steps, cluster_nonempty nodes steps,
   cluster_covers nodes steps, cluster_unique nodes steps⟩

/-- Witness for the amended C6 at a one-node, one-step input. -/
theorem claim_C6_witness :
    ∃ r ∈ computeClusterHulls [housedNode] stepsX, housedNode ∈ r.nodes :=
  (claim_C6_amended [housedNode] stepsX).2.2.1 housedNode (by decide) (by decide)

/-- C7: the node radius multiplier is 0.6 on the Abstract band, 0.8 on
the Minimal band and 1 above, hence non-decreasing in the zoom scale;
detail cards are absent below the Detailed threshold and present at or
above it. -/
theorem claim_C7_semantic_zoom :
    (∀ s : ℚ, s < ZOOM_ABSTRACT → nodeRadiusMultiplier s = 0.6) ∧
    (∀ s : ℚ, ZOOM_ABSTRACT ≤ s → s < ZOOM_MINIMAL → nodeRadiusMultiplier s = 0.8) ∧
    (∀ s : ℚ, ZOOM_MINIMAL ≤ s → nodeRadiusMultiplier s = 1) ∧
    (∀ s t : ℚ, s ≤ t → nodeRadiusMultiplier s ≤ nodeRadiusMultiplier t) ∧
    (∀ s : ℚ, s < ZOOM_DETAILED → detailCardsPresent s = false) ∧
    (∀ s : ℚ, ZOOM_DETAILED ≤ s → detailCardsPresent s = true) := by
  refine ⟨?_, ?_, ?_, ?_, ?_, ?_⟩
  · intro s h
    unfold nodeRadiusMultiplier
    rw [if_pos h]
  · intro s h1 h2
    unfold nodeRadiusMultiplier
    rw [if_neg (not_lt.2 h1), if_pos ⟨h1, h2⟩]
  · intro s h
    unfold nodeRadiusMultiplier ZOOM_ABSTRACT ZOOM_MINIMAL at *
    have h1 : ¬ s < (0.45 : ℚ) := by linarith
    have h2 : ¬ ((0.45 : ℚ) ≤ s ∧ s < 0.7) := by
      intro hc
      linarith [hc.2]
    rw [if_neg h1, if_neg h2]
  · intro s t hst
    unfold nodeRadiusMultiplier ZOOM_ABSTRACT ZOOM_MINIMAL
    by_cases h1 : s < (0.45 : ℚ)
    · rw [if_pos h1]
      by_cases h3 : t < (0.45 : ℚ)
      · rw [if_pos h3]
      · rw [if_neg h3]
        by_cases h4 : (0.45 : ℚ) ≤ t ∧ t < 0.7
        · rw [if_pos h4]
          norm_num
        · rw [if_neg h4]
          norm_num
    · rw [if_neg h1]
      have h3 : ¬ t < (0.45 : ℚ) := by
        intro hc
        exact h1 (lt_of_le_of_lt hst hc)
      rw [if_neg h3]
      by_cases h2 : (0.45 : ℚ) ≤ s ∧ s < 0.7
      · rw [if_pos h2]
        by_cases h4 : (0.45 : ℚ) ≤ t ∧ t < 0.7
        · rw [if_pos h4]
        · rw [if_neg h4]
          norm_num
      · rw [if_neg h2]
        have hs7 : (0.7 : ℚ) ≤ s := by
          push_neg at h2
          have hs45 : (0.45 : ℚ) ≤ s := not_lt.1 h1
          exact not_lt.1 (fun hc => absurd (h2 hs45) (not_le.2 hc))
        have h4 : ¬ ((0.45 : ℚ) ≤ t ∧ t < 0.7) := by
          intro hc
          linarith [hc.2]
        rw [if_neg h4]
  · intro s h
    unfold detailCardsPresent ZOOM_DETAILED ZOOM_FULL at *
    have d1 : decide ((1.5 : ℚ) ≤ s ∧ s < 2.2) = false := by
      refine decide_eq_false ?_
      intro hc
      linarith [hc.1]
    have d2 : decide ((2.2 : ℚ) ≤ s) = false := by
      refine decide_eq_false ?_
      intro hc
      linarith
    rw [d1, d2]
    rfl
  · intro s h
    unfold detailCardsPresent ZOOM_DETAILED ZOOM_FULL at *
    by_cases h2 : s < (2.2 : ℚ)
    · have d1 : decide ((1.5 : ℚ) ≤ s ∧ s < 2.2) = true := decide_eq_true ⟨h, h2⟩
      rw [d1]
      rfl
    · have d2 : decide ((2.2 : ℚ) ≤ s) = true := decide_eq_true (not_lt.1 h2)
      rw [d2, Bool.or_true]

/-- Witness for C7 at concrete scales in each band. -/
theorem claim_C7_witness :
    nodeRadiusMultiplier 0.2 = 0.6 ∧ nodeRadiusMultiplier 0.5 = 0.8 ∧
    nodeRadiusMultiplier 1 = 1 ∧ detailCardsPresent 1 = false ∧
    detailCardsPresent 2 = true := by
  refine ⟨claim_C7_semantic_zoom.1 0.2 ?_, claim_C7_semantic_zoom.2.1 0.5 ?_ ?_,
    claim_C7_semantic_zoom.2.2.1 1 ?_, claim_C7_semantic_zoom.2.2.2.2.1 1 ?_,
    claim_C7_semantic_zoom.2.2.2.2.2 2 ?_⟩ <;>
  norm_num [ZOOM_ABSTRACT, ZOOM_MINIMAL, ZOOM_DETAILED]

/-- C8: every similarity-stage edge of a built graph joins a method pair
whose score reaches the threshold (and stores that score as strength);
consequently a threshold above every achievable pairwise score yields
zero similarity edges regardless of the per-node cap. -/
theorem claim_C8_threshold (data : CatalogData) (opts : LinkOptions) :
    (∀ l ∈ (buildGraphData data opts).links, l.type = RelType.similar →
      ∃ m1 ∈ data.methods, ∃ m2 ∈ data.methods,
        l.source = m1.id ∧ l.target = m2.id ∧
        opts.similarityThreshold ≤ calculateSimilarity m1 m2 data.pipelineSteps ∧
        l.strength = calculateSimilarity m1 m2 data.pipelineSteps) ∧
    ((∀ m1 ∈ data.methods, ∀ m2 ∈ data.methods, m1.id ≠ m2.id →
        calculateSimilarity m1 m2 data.pipelineSteps < opts.similarityThreshold) →
      ∀ l ∈ (buildGraphData data opts).links, l.type ≠ RelType.similar) := by
  refine ⟨build_similar_provenance data opts, ?_⟩
  intro hall l hl hty
  obtain ⟨m1, h1, m2, h2, hsrc, htgt, hth, _⟩ :=
    build_similar_provenance data opts l hl hty
  have hne : m1.id ≠ m2.id := by
    intro he
    exact build_no_self_loop data opts l hl (hsrc.trans (he.trans htgt.symm))
  exact absurd hth (not_le.2 (hall m1 h1 m2 h2 hne))

theorem simCandidates_pair (m1 m2 : MethodRecord) (steps : List PipelineStep)
    (th : ℚ) (h : th ≤ calculateSimilarity m1 m2 steps) :
    simCandidates [m1, m2] steps th =
      [⟨m1.id, m2.id, calculateSimilarity m1 m2 steps⟩] := by
  unfold simCandidates
  have hp : listPairs [m1, m2] = [(m1, m2)] := rfl
  rw [hp, List.filterMap_cons, List.filterMap_nil]
  dsimp only
  rw [if_pos h]

theorem sortedSims_pair (m1 m2 : MethodRecord) (steps : List PipelineStep)
    (th : ℚ) (h : th ≤ calculateSimilarity m1 m2 steps) :
    sortedSims [m1, m2] steps th =
      [⟨m1.id, m2.id, calculateSimilarity m1 m2 steps⟩] := by
  unfold sortedSims
  rw [simCandidates_pair m1 m2 steps th h, List.mergeSort_singleton]

theorem simA_simB_score : calculateSimilarity simA simB [] = 0.25 := by
  unfold calculateSimilarity rawScore stepProximity
  norm_num [simA, simB, countShared, min_def]
  rw [if_neg (by decide : ¬ ("sA" : String) = "sB"),
    if_neg (by decide : ¬ ("m1" : String) = "m2"),
    if_neg (by decide : ¬ ("e1" : String) = "e2")]
  norm_num

theorem catSim_links : (buildGraphData catSim optsSim).links =
    [⟨"sA", "sB", RelType.similar, calculateSimilarity simA simB []⟩] := by
  rw [buildGraphData_links_split]
  rw [if_pos (by rfl : optsSim.showSimilarMethods = true)]
  have hpre : preAttempts catSim optsSim = [] := rfl
  rw [hpre, applyAttempts_nil]
  have hsorted : sortedSims catSim.methods catSim.pipelineSteps
      optsSim.similarityThreshold =
      [⟨"sA", "sB", calculateSimilarity simA simB []⟩] := by
    show sortedSims [simA, simB] [] (0.2 : ℚ) = _
    have hth : (0.2 : ℚ) ≤ calculateSimilarity simA simB [] := by
      rw [simA_simB_score]
      norm_num
    rw [sortedSims_pair simA simB [] 0.2 hth]
    rfl
  rw [hsorted]
  simp only [simFold]
  rw [if_pos ?_]
  · show (addLink ⟨[], []⟩ "sA" "sB" RelType.similar _).links = _
    rfl
  · exact ⟨by decide, by decide⟩

/-- Witness for C8 at a concrete two-method catalog with only the
similarity stage enabled: the built graph contains a similarity edge
whose endpoints and strength come from a pair scoring above the
threshold. -/
theorem claim_C8_witness :
    ∃ m1 ∈ catSim.methods, ∃ m2 ∈ catSim.methods,
      ("sA" : String) = m1.id ∧ ("sB" : String) = m2.id ∧
      optsSim.similarityThreshold ≤ calculateSimilarity m1 m2 catSim.pipelineSteps ∧
      calculateSimilarity simA simB [] = calculateSimilarity m1 m2 catSim.pipelineSteps := by
  have hmem : (⟨"sA", "sB", RelType.similar,
      calculateSimilarity simA simB []⟩ : Link) ∈
      (buildGraphData catSim optsSim).links := by
    rw [catSim_links]
    exact List.mem_singleton_self _
  exact (claim_C8_threshold catSim optsSim).1 _ hmem rfl

/-- C9: building never fails on a stale related id: every edge endpoint
resolves to a catalog method id, and pruning all unresolvable related
ids from the catalog leaves the edge list unchanged. -/
theorem claim_C9_stale_reference (data : CatalogData) (opts : LinkOptions) :
    (∀ l ∈ (buildGraphData data opts).links,
      l.source ∈ data.methods.map (fun m => m.id) ∧
      l.target ∈ data.methods.map (fun m => m.id)) ∧
    (buildGraphData (pruneStale data) opts).links = (buildGraphData data opts).links :=
  ⟨build_endpoints data opts, prune_build_links data opts⟩

/-- Witness for C9: catAB contains the stale reference ghost, and the
explicit edge endpoints resolve to catalog ids. -/
theorem claim_C9_witness :
    ("ghost" ∈ mA.related_method_ids) ∧
    ("mA" ∈ catAB.methods.map (fun m => m.id)) ∧
    ("mB" ∈ catAB.methods.map (fun m => m.id)) := by
  have hmem : (⟨"mA", "mB", RelType.explicit, 1⟩ : Link) ∈
      (buildGraphData catAB optsE).links := by decide
  have h := (claim_C9_stale_reference catAB optsE).1 _ hmem
  exact ⟨by decide, h.1, h.2⟩

/-- C10: no edge of a built graph is a self loop, even when a method
references its own id (catAB does); addLink skips such pairs. -/
theorem claim_C10_no_self_loop (data : CatalogData) (opts : LinkOptions) :
    ∀ l ∈ (buildGraphData data opts).links, l.source ≠ l.target :=
  build_no_self_loop data opts

/-- Witness for C10 at the concrete catalog whose method mA lists its
own id among its related ids. -/
theorem claim_C10_witness :
    ("mA" ∈ mA.related_method_ids) ∧
    (⟨"mA", "mB", RelType.explicit, 1⟩ : Link) ∈ (buildGraphData catAB optsE).links ∧
    ("mA" : String) ≠ "mB" := by
  have hmem : (⟨"mA", "mB", RelType.explicit, 1⟩ : Link) ∈
      (buildGraphData catAB optsE).links := by decide
  exact ⟨by decide, hmem, claim_C10_no_self_loop catAB optsE _ hmem⟩

end RelGraph
